import Mathlib

/-!
Verification development for the scherzo motion-control core.

This file gives a shallow embedding, in Lean, of the two subsystems the
claims under study are about:

* `StepCompressor` — a faithful translation of
  `crates/scherzo-core/src/step_compressor.rs`.  Machine integers are
  modelled as `ℕ` (u64/u32/u16) and `ℤ` (i64/i16/i32) with the wrapping
  `as` casts written out explicitly (`% 2^32`, etc.); `f64` values are
  idealised as `ℚ`; Rust's truncating `/` on `i64` is `Int.tdiv`;
  fallible operations return `Except`.  The two source loops that are
  not structurally recursive (`compress_bisect_add`'s bisection and
  `queue_flush`'s drain loop) are written with an explicit fuel
  parameter; running out of fuel is reported as an error value, so every
  theorem about a successful run speaks about a terminating run of the
  source loop.

* `TrapQueue` — a faithful translation of
  `crates/scherzo-core/src/trap_queue.rs`, with `f64` as `ℚ` and the
  `VecDeque` as a `List` (front of the deque = head of the list).

All definitions mirror the Rust source; the few helper functions
(`insert_before_tail`, `modify_tail`, `push_clock`, …) implement exactly
the container operation used at the corresponding source line.
-/

deriving instance DecidableEq for Except

/-! ## Machine-integer casts -/

/-- Reinterpretation of a `u64` value as an `i64` (the Rust `as i64` cast):
two's-complement wrap-around. -/
def i64ofU64 (n : ℕ) : ℤ :=
  if n % 2 ^ 64 < 2 ^ 63 then ((n % 2 ^ 64 : ℕ) : ℤ) else ((n % 2 ^ 64 : ℕ) : ℤ) - 2 ^ 64

/-- The Rust `as u32` cast from `i64`: keep the low 32 bits. -/
def u32ofInt (x : ℤ) : ℕ := (x % (2 ^ 32 : ℤ)).toNat

/-- The Rust `as u16` cast from `i64`: keep the low 16 bits. -/
def u16ofInt (x : ℤ) : ℕ := (x % (2 ^ 16 : ℤ)).toNat

/-- The Rust `as i16` cast from `i64`: low 16 bits, reinterpreted signed. -/
def i16ofInt (x : ℤ) : ℤ := (x + 2 ^ 15) % 2 ^ 16 - 2 ^ 15

/-- The Rust `as u64` cast from `f64`: truncate toward zero, saturating at
`0` and `u64::MAX`. -/
def ratToU64 (q : ℚ) : ℕ := if q < 0 then 0 else min (⌊q⌋).toNat (2 ^ 64 - 1)

/-- Bitwise xor of an `i32` with `0` or `1` (the `sdir ^ invert_sdir as i32`
expression of the source): xor with `1` flips the lowest bit in
two's-complement. -/
def i32XorBit (a : ℤ) (b : Bool) : ℤ :=
  if b then (if a % 2 = 0 then a + 1 else a - 1) else a

/-! ## Step compressor: constants and data (step_compressor.rs) -/

def CLOCK_DIFF_MAX : ℕ := 3 * 2 ^ 28

def QUADRATIC_DEV : ℤ := 11

def SDS_FILTER_TIME : ℚ := 750 / 1000000

/-- Rust `idiv_up` from step_compressor.rs (i64 division truncates). -/
def idiv_up (n d : ℤ) : ℤ := if 0 ≤ n then Int.tdiv (n + d - 1) d else Int.tdiv n d

/-- Rust `idiv_down` from step_compressor.rs. -/
def idiv_down (n d : ℤ) : ℤ := if 0 ≤ n then Int.tdiv n d else Int.tdiv (n - d + 1) d

structure QueueStep where
  oid : ℕ
  first_clock : ℕ
  last_clock : ℕ
  interval : ℕ
  count : ℕ
  add : ℤ
  req_clock : ℕ
  min_clock : ℕ
deriving DecidableEq

structure SetNextStepDir where
  oid : ℕ
  dir : Bool
  req_clock : ℕ
deriving DecidableEq

inductive Command where
  | queueStep (q : QueueStep)
  | setNextStepDir (d : SetNextStepDir)
deriving DecidableEq

structure HistoryEntry where
  first_clock : ℕ
  last_clock : ℕ
  start_position : ℤ
  step_count : ℤ
  interval : ℕ
  add : ℤ
deriving DecidableEq

structure StepMove where
  interval : ℕ
  count : ℕ
  add : ℤ
deriving DecidableEq

structure Points where
  minp : ℤ
  maxp : ℤ
deriving DecidableEq

inductive StepCompressError where
  | invalidSequence (interval count : ℕ) (add : ℤ)
  | pointOutOfRange (index : ℕ) (value min max : ℤ) (interval count : ℕ) (add : ℤ)
  | intervalOverflow (index interval count : ℕ) (add : ℤ)
  | fuelExhausted
  | missingPendingStep
deriving DecidableEq

/-- The mutable state of `StepCompressor<S>`; the command sink is factored
out: every operation returns the list of commands it pushed. -/
structure StepCompressor where
  oid : ℕ
  max_error : ℕ
  mcu_time_offset : ℚ
  mcu_freq : ℚ
  last_step_print_time : ℚ
  last_step_clock : ℕ
  sdir : ℤ
  invert_sdir : Bool
  next_step_clock : Option ℕ
  next_step_dir : ℤ
  queue : List ℕ
  queue_pos : ℕ
  queue_cap : ℕ
  last_position : ℤ
  history : List HistoryEntry

namespace StepCompressor

/-- `StepCompressor::new`. -/
def new (oid max_error : ℕ) : StepCompressor where
  oid := oid
  max_error := max_error
  mcu_time_offset := 0
  mcu_freq := 1
  last_step_print_time := -(1 / 2)
  last_step_clock := 0
  sdir := -1
  invert_sdir := false
  next_step_clock := none
  next_step_dir := 0
  queue := []
  queue_pos := 0
  queue_cap := 1024
  last_position := 0
  history := []

/-- `calc_last_step_print_time`. -/
def calc_last_step_print_time (s : StepCompressor) : StepCompressor :=
  { s with last_step_print_time :=
      s.mcu_time_offset + ((s.last_step_clock : ℚ) - 1 / 2) / s.mcu_freq }

/-- `set_time`. -/
def set_time (s : StepCompressor) (time_offset mcu_freq : ℚ) : StepCompressor :=
  calc_last_step_print_time { s with mcu_time_offset := time_offset, mcu_freq := mcu_freq }

/-- `minmax_point` (step_compressor.rs lines 329-345). -/
def minmax_point (s : StepCompressor) (idx : ℕ) : Points :=
  let lsc := i64ofU64 s.last_step_clock
  let point := i64ofU64 (s.queue.getD idx 0) - lsc
  let prevpoint := if s.queue_pos < idx then i64ofU64 (s.queue.getD (idx - 1) 0) - lsc else 0
  let me := Int.tdiv (point - prevpoint) 2
  let me2 := if (s.max_error : ℤ) < me then (s.max_error : ℤ) else me
  ⟨point - me2, point⟩

/-- Result of the inner (count-extension) loop of `compress_bisect_add`:
either an early `return` out of the whole function, or the `break` with
the loop's final values. -/
inductive InnerRes where
  | ret (mv : StepMove)
  | brk (interval nextcount nextmin nextmax : ℤ) (nextpoint : Points)
  | noFuel
deriving DecidableEq

/-- The inner loop of `compress_bisect_add` (lines 369-392), fuelled. -/
def compress_inner (s : StepCompressor) (qlast : ℕ) (add : ℤ) :
    ℕ → ℤ → ℤ → ℤ → ℤ → InnerRes
  | 0, _, _, _, _ => .noFuel
  | f + 1, nmin, nmax, intv, ncount =>
    let ncount' := ncount + 1
    if qlast < s.queue_pos + ncount'.toNat then
      .ret ⟨u32ofInt intv, u16ofInt (ncount' - 1), i16ofInt add⟩
    else
      let np := s.minmax_point (s.queue_pos + ncount'.toNat - 1)
      let naf := Int.tdiv (ncount' * (ncount' - 1)) 2
      let c := add * naf
      let nmin' := if nmin * ncount' < np.minp - c then idiv_up (np.minp - c) ncount' else nmin
      let nmax' := if np.maxp - c < nmax * ncount' then idiv_down (np.maxp - c) ncount' else nmax
      if nmax' < nmin' then .brk intv ncount' nmin' nmax' np
      else compress_inner s qlast add f nmin' nmax' nmax' ncount'

/-- The selection made after the outer loop of `compress_bisect_add`
(lines 446-458): prefer the zero-add candidate when it is close enough. -/
def compress_finish (zi zc bi bc ba : ℤ) : StepMove :=
  if bc ≤ zc + Int.tdiv zc 16 then ⟨u32ofInt zi, u16ofInt zc, 0⟩
  else ⟨u32ofInt bi, u16ofInt bc, i16ofInt ba⟩

/-- The outer (bisection over `add`) loop of `compress_bisect_add`
(lines 363-444), fuelled. -/
def compress_outer (s : StepCompressor) (qlast : ℕ) :
    ℕ → ℤ → ℤ → ℤ → ℤ → ℤ → ℤ → ℤ → ℤ → ℤ → ℤ → ℤ → Option StepMove
  | 0, _, _, _, _, _, _, _, _, _, _, _ => none
  | f + 1, omin, omax, add, minadd, maxadd, bi, bc, ba, br, zi, zc =>
    match compress_inner s qlast add 70000 omin omax omax 1 with
    | .noFuel => none
    | .ret mv => some mv
    | .brk intv ncount nmin nmax np =>
      let count := ncount - 1
      let af := Int.tdiv (count * (count - 1)) 2
      let reach := add * af + intv * count
      let better := br < reach ∨ (reach = br ∧ bi < intv)
      let bi' := if better then intv else bi
      let bc' := if better then count else bc
      let ba' := if better then add else ba
      let br' := if better then reach else br
      let zi' := if better ∧ add = 0 then intv else zi
      let zc' := if better ∧ add = 0 then count else zc
      if better ∧ 0x200 < count then some (compress_finish zi' zc' bi' bc' ba')
      else
        let naf := Int.tdiv (ncount * (ncount - 1)) 2
        let nreach := add * naf + intv * ncount
        let minadd1 := if nreach < np.minp then add + 1 else minadd
        let omax' := if nreach < np.minp then nmax else omax
        let maxadd1 := if nreach < np.minp then maxadd else add - 1
        let omin' := if nreach < np.minp then omin else nmin
        let errdelta := Int.tdiv ((s.max_error : ℤ) * QUADRATIC_DEV) (count * count)
        let minadd2 := if 1 < count ∧ minadd1 < add - errdelta then add - errdelta else minadd1
        let maxadd2 := if 1 < count ∧ add + errdelta < maxadd1 then add + errdelta else maxadd1
        let c1 := omax' * ncount
        let minadd3 := if minadd2 * naf < np.minp - c1 then idiv_up (np.minp - c1) naf else minadd2
        let c2 := omin' * ncount
        let maxadd3 := if np.maxp - c2 < maxadd2 * naf then idiv_down (np.maxp - c2) naf else maxadd2
        if maxadd3 < minadd3 then some (compress_finish zi' zc' bi' bc' ba')
        else
          compress_outer s qlast f omin' omax'
            (maxadd3 - Int.tdiv (maxadd3 - minadd3) 4) minadd3 maxadd3 bi' bc' ba' br' zi' zc'

/-- `compress_bisect_add` (lines 347-459).  `none` means the fuel bound was
hit, which a successful `queue_flush` run excludes. -/
def compress_bisect_add (s : StepCompressor) : Option StepMove :=
  let qlast := min (s.queue_pos + 65535) s.queue.length
  let point := s.minmax_point s.queue_pos
  compress_outer s qlast 70000 point.minp point.maxp 0 (-0x8000) 0x7fff 0 1 1 (-(2 ^ 63)) 0 0

/-- The per-point loop of `check_line` (lines 473-498); arguments are the
remaining iteration count, the loop index `i`, and the running `p` and
`interval` values. -/
def check_points (s : StepCompressor) (mv : StepMove) :
    ℕ → ℕ → ℤ → ℤ → Except StepCompressError Unit
  | 0, _, _, _ => .ok ()
  | n + 1, i, p, intv =>
    let point := s.minmax_point (s.queue_pos + i)
    let p2 := p + intv
    if p2 < point.minp ∨ point.maxp < p2 then
      .error (.pointOutOfRange (i + 1) p2 point.minp point.maxp mv.interval mv.count mv.add)
    else if (2 ^ 31 : ℤ) ≤ intv then
      .error (.intervalOverflow (i + 1) mv.interval mv.count mv.add)
    else check_points s mv n (i + 1) p2 (intv + mv.add)

/-- `check_line` (lines 461-500). -/
def check_line (s : StepCompressor) (mv : StepMove) : Except StepCompressError Unit :=
  if mv.count = 0 ∨ (mv.interval = 0 ∧ mv.add = 0 ∧ 1 < mv.count) ∨ 2 ^ 31 ≤ mv.interval then
    .error (.invalidSequence mv.interval mv.count mv.add)
  else check_points s mv mv.count 0 0 (mv.interval : ℤ)

/-- `add_move` on the compressor (lines 502-540): emit the `QueueStep`
command, advance `last_step_clock`, and record the history entry. -/
def add_move (s : StepCompressor) (first_clock : ℕ) (mv : StepMove) :
    StepCompressor × Command :=
  let addfactor : ℕ := mv.count * (mv.count - 1) / 2
  let ticks : ℤ := mv.add * (addfactor : ℤ) + (mv.interval : ℤ) * ((mv.count : ℤ) - 1)
  let last_clock : ℕ := ((first_clock : ℤ) + ticks).toNat
  let req_clock :=
    if mv.count = 1 ∧ s.last_step_clock + CLOCK_DIFF_MAX ≤ first_clock then first_clock
    else s.last_step_clock
  let cmd := Command.queueStep
    ⟨s.oid, first_clock, last_clock, mv.interval, mv.count, mv.add, req_clock,
      s.last_step_clock⟩
  let step_count : ℤ := if s.sdir ≠ 0 then (mv.count : ℤ) else -(mv.count : ℤ)
  let entry : HistoryEntry :=
    ⟨first_clock, last_clock, s.last_position, step_count, mv.interval, mv.add⟩
  ({ s with
      last_step_clock := last_clock
      last_position := s.last_position + step_count
      history := entry :: s.history }, cmd)

/-- The drain loop of `queue_flush` (lines 547-560), fuelled. -/
def queue_flush_loop : ℕ → StepCompressor → ℕ → Except StepCompressError (StepCompressor × List Command)
  | 0, _, _ => .error .fuelExhausted
  | f + 1, s, move_clock =>
    if s.last_step_clock < move_clock then
      match s.compress_bisect_add with
      | none => .error .fuelExhausted
      | some mv =>
        match s.check_line mv with
        | .error e => .error e
        | .ok _ =>
          let first_clock := s.last_step_clock + mv.interval
          let sc := s.add_move first_clock mv
          if sc.1.queue.length ≤ sc.1.queue_pos + mv.count then
            .ok ({ sc.1 with queue := [], queue_pos := 0 }, [sc.2])
          else
            match queue_flush_loop f { sc.1 with queue_pos := sc.1.queue_pos + mv.count } move_clock with
            | .error e => .error e
            | .ok (s2, out) => .ok (s2, sc.2 :: out)
    else .ok (s, [])

/-- `queue_flush` (lines 542-567).  The fuel handed to the drain loop is
one more than the number of queued steps, which bounds the number of its
iterations (each one consumes at least one queued step). -/
def queue_flush (s : StepCompressor) (move_clock : ℕ) :
    Except StepCompressError (StepCompressor × List Command) :=
  if s.queue.length ≤ s.queue_pos then .ok (s, [])
  else
    match queue_flush_loop (s.queue.length - s.queue_pos + 1) s move_clock with
    | .error e => .error e
    | .ok (s1, out) =>
      let s2 := s1.calc_last_step_print_time
      let s3 :=
        if 0 < s2.queue_pos ∧ s2.queue.length < s2.queue_pos * 2 then
          { s2 with queue := s2.queue.drop s2.queue_pos, queue_pos := 0 }
        else s2
      .ok (s3, out)

/-- `set_next_step_dir` (lines 569-582). -/
def set_next_step_dir (s : StepCompressor) (sdir : ℤ) :
    Except StepCompressError (StepCompressor × List Command) :=
  if s.sdir = sdir then .ok (s, [])
  else
    match s.queue_flush (2 ^ 64 - 1) with
    | .error e => .error e
    | .ok (s1, out) =>
      let s2 := { s1 with sdir := sdir }
      let dir : Bool := if i32XorBit sdir s2.invert_sdir = 0 then false else true
      .ok (s2, out ++ [Command.setNextStepDir ⟨s2.oid, dir, s2.last_step_clock⟩])

/-- A `Vec::push` of a step clock, tracking the capacity used by the
`len == capacity` test in `queue_append`. -/
def push_clock (s : StepCompressor) (c : ℕ) : StepCompressor :=
  { s with queue := s.queue ++ [c], queue_cap := max s.queue_cap (s.queue.length + 1) }

/-- `queue_append_far` (lines 584-602). -/
def queue_append_far (s : StepCompressor) :
    Except StepCompressError (StepCompressor × List Command) :=
  match s.next_step_clock with
  | none => .error .missingPendingStep
  | some step_clock =>
    let s0 := { s with next_step_clock := none }
    match s0.queue_flush (step_clock - CLOCK_DIFF_MAX + 1) with
    | .error e => .error e
    | .ok (s1, out) =>
      if s1.last_step_clock + CLOCK_DIFF_MAX ≤ step_clock then
        let mv : StepMove := ⟨(step_clock - s1.last_step_clock) % 2 ^ 32, 1, 0⟩
        let sc := s1.add_move step_clock mv
        .ok (sc.1.calc_last_step_print_time, out ++ [sc.2])
      else .ok (push_clock s1 step_clock, out)

/-- `queue_append_extend` (lines 604-619). -/
def queue_append_extend (s : StepCompressor) :
    Except StepCompressError (StepCompressor × List Command) :=
  match
    (if 65535 + 2000 < s.queue.length - s.queue_pos then
      s.queue_flush (s.last_step_clock + (s.queue.getD (s.queue.length - 65535) 0 - s.last_step_clock))
    else .ok (s, [])) with
  | .error e => .error e
  | .ok (s1, out) =>
    let s2 :=
      if 0 < s1.queue_pos then { s1 with queue := s1.queue.drop s1.queue_pos, queue_pos := 0 }
      else if s1.queue.length = s1.queue_cap then { s1 with queue_cap := max s1.queue_cap 1024 * 2 }
      else s1
    .ok (s2, out)

/-- `queue_append` (lines 621-638). -/
def queue_append (s : StepCompressor) :
    Except StepCompressError (StepCompressor × List Command) :=
  match (if s.next_step_dir ≠ s.sdir then s.set_next_step_dir s.next_step_dir else .ok (s, [])) with
  | .error e => .error e
  | .ok (s1, out1) =>
    match s1.next_step_clock with
    | none => .error .missingPendingStep
    | some step_clock =>
      let s2 := { s1 with next_step_clock := none }
      if s2.last_step_clock + CLOCK_DIFF_MAX ≤ step_clock then
        match queue_append_far { s2 with next_step_clock := some step_clock } with
        | .error e => .error e
        | .ok (s3, out2) => .ok (s3, out1 ++ out2)
      else
        match (if s2.queue.length = s2.queue_cap then s2.queue_append_extend else .ok (s2, [])) with
        | .error e => .error e
        | .ok (s4, out3) => .ok (push_clock s4 step_clock, out1 ++ out3)

/-- The step-clock computation at the top of `append` (lines 204-207). -/
def append_step_clock (s : StepCompressor) (print_time step_time : ℚ) : ℕ :=
  let offset := print_time - s.last_step_print_time
  let rel_sc := (step_time + offset) * s.mcu_freq
  s.last_step_clock + ratToU64 rel_sc

/-- `append` (lines 203-225). -/
def append (s : StepCompressor) (sdir : ℤ) (print_time step_time : ℚ) :
    Except StepCompressError (StepCompressor × List Command) :=
  let step_clock := s.append_step_clock print_time step_time
  match s.next_step_clock with
  | some prev_clock =>
    if sdir ≠ s.next_step_dir ∧
        ((i64ofU64 step_clock - i64ofU64 prev_clock : ℤ) : ℚ) < SDS_FILTER_TIME * s.mcu_freq then
      .ok ({ s with next_step_clock := none, next_step_dir := sdir }, [])
    else
      match s.queue_append with
      | .error e => .error e
      | .ok (s1, out) =>
        .ok ({ s1 with next_step_clock := some step_clock, next_step_dir := sdir }, out)
  | none => .ok ({ s with next_step_clock := some step_clock, next_step_dir := sdir }, [])

/-- `commit` (lines 227-232). -/
def commit (s : StepCompressor) : Except StepCompressError (StepCompressor × List Command) :=
  match s.next_step_clock with
  | some _ => s.queue_append
  | none => .ok (s, [])

/-- `flush` (lines 234-241). -/
def flush (s : StepCompressor) (move_clock : ℕ) :
    Except StepCompressError (StepCompressor × List Command) :=
  match
    (match s.next_step_clock with
      | some next_clock => if next_clock ≤ move_clock then s.queue_append else .ok (s, [])
      | none => .ok (s, [])) with
  | .error e => .error e
  | .ok (s1, out1) =>
    match s1.queue_flush move_clock with
    | .error e => .error e
    | .ok (s2, out2) => .ok (s2, out1 ++ out2)

end StepCompressor

/-! ## Driver for sequences of public StepCompressor operations -/

/-- A public operation on the compressor, as used by the solver and the
scheduler: `append`, `commit`, or `flush`. -/
inductive SCOp where
  | app (sdir : ℤ) (print_time step_time : ℚ)
  | com
  | fl (move_clock : ℕ)

def applySC (s : StepCompressor) : SCOp → Except StepCompressError (StepCompressor × List Command)
  | .app d pt st => s.append d pt st
  | .com => s.commit
  | .fl t => s.flush t

/-- Run a sequence of operations, concatenating all pushed commands. -/
def runSC : StepCompressor → List SCOp → Except StepCompressError (StepCompressor × List Command)
  | s, [] => .ok (s, [])
  | s, op :: ops =>
    match applySC s op with
    | .error e => .error e
    | .ok (s1, out1) =>
      match runSC s1 ops with
      | .error e => .error e
      | .ok (s2, out2) => .ok (s2, out1 ++ out2)

/-! ## Trapezoidal move queue (trap_queue.rs) -/

def NEVER_TIME : ℚ := 99999999999999999 / 10

def MAX_NULL_MOVE : ℚ := 1

structure Coord where
  x : ℚ
  y : ℚ
  z : ℚ
deriving DecidableEq

structure Move where
  print_time : ℚ
  move_t : ℚ
  start_v : ℚ
  half_accel : ℚ
  start_pos : Coord
  axes_r : Coord
deriving DecidableEq

/-- `Move::default()`: all fields zero. -/
def moveDefault : Move := ⟨0, 0, 0, 0, ⟨0, 0, 0⟩, ⟨0, 0, 0⟩⟩

instance : Inhabited Move := ⟨moveDefault⟩

structure PullMove where
  print_time : ℚ
  move_t : ℚ
  start_v : ℚ
  accel : ℚ
  start_x : ℚ
  start_y : ℚ
  start_z : ℚ
  x_r : ℚ
  y_r : ℚ
  z_r : ℚ
deriving DecidableEq

/-- `move_get_distance`. -/
def move_get_distance (m : Move) (move_time : ℚ) : ℚ :=
  (m.start_v + m.half_accel * move_time) * move_time

/-- `move_get_coord`. -/
def move_get_coord (m : Move) (move_time : ℚ) : Coord :=
  let move_dist := move_get_distance m move_time
  ⟨m.start_pos.x + m.axes_r.x * move_dist,
   m.start_pos.y + m.axes_r.y * move_dist,
   m.start_pos.z + m.axes_r.z * move_dist⟩

/-- The `PullMove` built from a `Move` by `extract_old` (and by
`copy_pull_move`): `accel` is `2 * half_accel`. -/
def pull_of (m : Move) : PullMove :=
  ⟨m.print_time, m.move_t, m.start_v, 2 * m.half_accel,
   m.start_pos.x, m.start_pos.y, m.start_pos.z,
   m.axes_r.x, m.axes_r.y, m.axes_r.z⟩

/-- `VecDeque::insert(len - 1, x)`: insert just before the tail sentinel. -/
def insert_before_tail (l : List Move) (x : Move) : List Move :=
  l.dropLast ++ [x] ++ [l.getLastD moveDefault]

/-- In-place update of the last element (the tail sentinel). -/
def modify_tail (l : List Move) (f : Move → Move) : List Move :=
  l.dropLast ++ [f (l.getLastD moveDefault)]

/-- The state of `TrapQueue`: the `moves` deque (head sentinel first, tail
sentinel last) and the `history` deque (front of the deque = head of the
list = most recent entry). -/
structure TrapQueue where
  moves : List Move
  history : List Move
deriving DecidableEq

namespace TrapQueue

/-- `TrapQueue::new`. -/
def new : TrapQueue where
  moves :=
    [{ moveDefault with print_time := -1 },
     { moveDefault with print_time := NEVER_TIME, move_t := NEVER_TIME }]
  history := []

/-- `check_sentinels` (trap_queue.rs lines 116-132). -/
def check_sentinels (q : TrapQueue) : TrapQueue :=
  let tail := q.moves.getLastD moveDefault
  if tail.print_time ≠ 0 then q
  else if q.moves.length ≤ 2 then
    let ms := modify_tail q.moves
      (fun t => { t with print_time := NEVER_TIME, move_t := NEVER_TIME })
    { q with moves := ms }
  else
    let prev := q.moves.getD (q.moves.length - 2) moveDefault
    let ms := modify_tail q.moves
      (fun t => { t with
          print_time := prev.print_time + prev.move_t
          move_t := 0
          start_pos := move_get_coord prev prev.move_t })
    { q with moves := ms }

/-- `add_move` (lines 135-158). -/
def add_move (q : TrapQueue) (m : Move) : TrapQueue :=
  let prev := q.moves.getD (q.moves.length - 2) moveDefault
  let ms1 :=
    if prev.print_time + prev.move_t < m.print_time then
      let npt :=
        if prev.print_time ≤ 0 ∧ MAX_NULL_MOVE < m.print_time then m.print_time - MAX_NULL_MOVE
        else prev.print_time + prev.move_t
      insert_before_tail q.moves
        { moveDefault with start_pos := m.start_pos, print_time := npt, move_t := m.print_time - npt }
    else q.moves
  let ms2 := insert_before_tail ms1 m
  { q with moves := modify_tail ms2 (fun t => { t with print_time := 0, move_t := 0 }) }

/-- `append` (lines 162-229): decompose a trapezoid into up to three moves. -/
def append (q : TrapQueue) (print_time accel_t cruise_t decel_t : ℚ)
    (start_pos_x start_pos_y start_pos_z axes_r_x axes_r_y axes_r_z : ℚ)
    (start_v cruise_v accel : ℚ) : TrapQueue :=
  let axes_r : Coord := ⟨axes_r_x, axes_r_y, axes_r_z⟩
  let pos0 : Coord := ⟨start_pos_x, start_pos_y, start_pos_z⟩
  let m1 : Move :=
    { print_time := print_time, move_t := accel_t, start_v := start_v,
      half_accel := 1 / 2 * accel, start_pos := pos0, axes_r := axes_r }
  let q1 := if 0 < accel_t then q.add_move m1 else q
  let t1 := if 0 < accel_t then print_time + accel_t else print_time
  let pos1 := if 0 < accel_t then move_get_coord m1 accel_t else pos0
  let m2 : Move :=
    { print_time := t1, move_t := cruise_t, start_v := cruise_v,
      half_accel := 0, start_pos := pos1, axes_r := axes_r }
  let q2 := if 0 < cruise_t then q1.add_move m2 else q1
  let t2 := if 0 < cruise_t then t1 + cruise_t else t1
  let pos2 := if 0 < cruise_t then move_get_coord m2 cruise_t else pos1
  let m3 : Move :=
    { print_time := t2, move_t := decel_t, start_v := cruise_v,
      half_accel := -(1 / 2) * accel, start_pos := pos2, axes_r := axes_r }
  if 0 < decel_t then q2.add_move m3 else q2

/-- The eviction loop of `finalize_moves` (lines 233-242), fuelled by the
length of the move list. -/
def finalize_loop (print_time : ℚ) : ℕ → List Move → List Move → List Move × List Move
  | 0, ms, h => (ms, h)
  | f + 1, ms, h =>
    if 2 < ms.length then
      let m := ms.getD 1 moveDefault
      if print_time < m.print_time + m.move_t then (ms, h)
      else
        finalize_loop print_time f (ms.eraseIdx 1)
          (if m.start_v ≠ 0 ∨ m.half_accel ≠ 0 then m :: h else h)
    else (ms, h)

/-- The history-trimming loop of `finalize_moves` (lines 250-261), fuelled
by the history length. -/
def trim_loop (latest : Move) (clear_history_time : ℚ) : ℕ → List Move → List Move
  | 0, h => h
  | f + 1, h =>
    if 1 < h.length then
      let last := h.getLastD moveDefault
      if clear_history_time < last.print_time + last.move_t then h
      else if last = latest then h
      else trim_loop latest clear_history_time f h.dropLast
    else h

/-- `finalize_moves` (lines 232-262). -/
def finalize_moves (q : TrapQueue) (print_time clear_history_time : ℚ) : TrapQueue :=
  let mh := finalize_loop print_time q.moves.length q.moves q.history
  let ms2 :=
    if mh.1.length = 2 then
      modify_tail mh.1 (fun t => { t with print_time := NEVER_TIME, move_t := NEVER_TIME })
    else mh.1
  let h2 :=
    match mh.2.head? with
    | some latest => trim_loop latest clear_history_time mh.2.length mh.2
    | none => mh.2
  { moves := ms2, history := h2 }

/-- The truncation loop of `set_position` (lines 268-276). -/
def trunc_loop (print_time : ℚ) : List Move → List Move
  | [] => []
  | f :: rest =>
    if f.print_time < print_time then
      (if print_time < f.print_time + f.move_t then { f with move_t := print_time - f.print_time }
       else f) :: rest
    else trunc_loop print_time rest

/-- `set_position` (lines 265-287). -/
def set_position (q : TrapQueue) (print_time x y z : ℚ) : TrapQueue :=
  let q1 := q.finalize_moves NEVER_TIME 0
  let h1 := trunc_loop print_time q1.history
  { q1 with history :=
      { moveDefault with print_time := print_time, start_pos := ⟨x, y, z⟩ } :: h1 }

/-- One of the two scan loops of `extract_old` (lines 294-342); pushes the
pull-moves of the matching elements of `l` onto `acc`. -/
def extract_loop (mx : ℕ) (start_time end_time : ℚ) : List Move → List PullMove → List PullMove
  | [], acc => acc
  | m :: rest, acc =>
    if end_time < m.print_time then extract_loop mx start_time end_time rest acc
    else if m.print_time + m.move_t < start_time then acc
    else
      let acc2 := acc ++ [pull_of m]
      if mx ≤ acc2.length then acc2 else extract_loop mx start_time end_time rest acc2

/-- `extract_old` (lines 290-345): scan the active region newest-first,
then the history deque in `.iter().rev()` order. -/
def extract_old (q : TrapQueue) (mx : ℕ) (start_time end_time : ℚ) : List PullMove :=
  let acc1 := extract_loop mx start_time end_time ((q.moves.drop 1).dropLast.reverse) []
  extract_loop mx start_time end_time q.history.reverse acc1

/-- `get_active_moves` (lines 349-356): the moves strictly between the two
sentinels. -/
def get_active_moves (q : TrapQueue) : List Move :=
  if q.moves.length ≤ 2 then [] else (q.moves.drop 1).dropLast

end TrapQueue

/-! ## Driver for sequences of public TrapQueue operations -/

/-- A public mutating operation on the trap queue. -/
inductive TqOp where
  | add (m : Move)
  | appendTrap (print_time accel_t cruise_t decel_t : ℚ)
      (start_pos_x start_pos_y start_pos_z axes_r_x axes_r_y axes_r_z : ℚ)
      (start_v cruise_v accel : ℚ)
  | fin (print_time clear_history_time : ℚ)
  | setp (print_time x y z : ℚ)

def applyTq (q : TrapQueue) : TqOp → TrapQueue
  | .add m => q.add_move m
  | .appendTrap pt at_ ct dt px py pz rx ry rz sv cv ac =>
    q.append pt at_ ct dt px py pz rx ry rz sv cv ac
  | .fin t c => q.finalize_moves t c
  | .setp t x y z => q.set_position t x y z

def runTq (q : TrapQueue) (ops : List TqOp) : TrapQueue := ops.foldl applyTq q

/-! ## Definitions used to state the claims -/

/-- Triangular number `k * (k - 1) / 2`, in the recursive form used by the
arithmetic-progression identities. -/
def tri : ℕ → ℕ
  | 0 => 0
  | k + 1 => tri k + k

/-- The arithmetic-progression reconstruction of step `k` of a run
`(interval, count, add)` relative to `last_step_clock`:
`interval * k + add * (k * (k - 1) / 2)`. -/
def reconstruct (mv : StepMove) (k : ℕ) : ℤ :=
  (mv.interval : ℤ) * k + mv.add * (tri k : ℤ)

/-- The field ranges claimed for every emitted `QueueStep` run:
`interval ∈ [1, 2^31)`, `add ∈ [-2^15, 2^15)`, `count ∈ [1, 65535]`.
`SetNextStepDir` commands satisfy it vacuously. -/
def runFieldsOk (c : Command) : Bool :=
  match c with
  | .queueStep q =>
    1 ≤ q.interval && q.interval < 2 ^ 31 && 1 ≤ q.count && q.count ≤ 65535 &&
      -(2 ^ 15) ≤ q.add && q.add < 2 ^ 15
  | .setNextStepDir _ => true

def isSND : Command → Bool
  | .setNextStepDir _ => true
  | .queueStep _ => false

def isQS : Command → Bool
  | .queueStep _ => true
  | .setNextStepDir _ => false

/-- The `QueueStep` payloads of a command stream, in order. -/
def queueStepsOf (out : List Command) : List QueueStep :=
  out.filterMap fun c => match c with | .queueStep q => some q | .setNextStepDir _ => none

def containsSND (out : List Command) : Bool := out.any isSND

/-- Every `QueueStep` in the stream is preceded by some `SetNextStepDir`:
the prefix before the first `SetNextStepDir` holds no `QueueStep`. -/
def dirBeforeStep : List Command → Bool
  | [] => true
  | c :: rest => if isSND c then true else !(isQS c) && dirBeforeStep rest

/-- Direction arguments the iterative solver actually passes to `append`. -/
def dirOkOp : SCOp → Prop
  | .app d _ _ => d = 0 ∨ d = 1
  | .com => True
  | .fl _ => True

/-- `last_step_print_time` agrees with `calc_last_step_print_time`; this
holds after every `set_time` / `reset` / `queue_flush` and is maintained
by the compressor. -/
def lsptCanonical (s : StepCompressor) : Prop :=
  s.last_step_print_time = s.mcu_time_offset + ((s.last_step_clock : ℚ) - 1 / 2) / s.mcu_freq

/-- The state left behind by a successful `queue_flush s t`: either the
queued region is exhausted, or the clock has reached `t`, the print time
is canonical and the compaction step is a fixed point. -/
def flushedState (t : ℕ) (s : StepCompressor) : Prop :=
  s.queue.length ≤ s.queue_pos ∨
    (¬ s.last_step_clock < t ∧ lsptCanonical s ∧
      ¬(0 < s.queue_pos ∧ s.queue.length < s.queue_pos * 2))

/-- The move the source reads as `self.moves[tail_idx - 1]` in `add_move`:
the element just before the tail sentinel. -/
def prevMove (q : TrapQueue) : Move := q.moves.getD (q.moves.length - 2) moveDefault

/-- End time of the segment preceding the tail sentinel. -/
def lastEnd (q : TrapQueue) : ℚ := (prevMove q).print_time + (prevMove q).move_t

/-- Consecutive segments are gap-free: each ends exactly where the next
begins. -/
def segChain (l : List Move) : Prop :=
  List.Chain' (fun a b => a.print_time + a.move_t = b.print_time) l

/-- A well-behaved `add_move` call: the move has nonnegative duration,
starts no earlier than the current end of the timeline, and, when it
leaves a gap after an existing segment, does not trigger the capped
null-fill branch (predecessor `print_time ≤ 0` with
`print_time > MAX_NULL_MOVE`). -/
def goodAdd (q : TrapQueue) (m : Move) : Prop :=
  0 ≤ m.move_t ∧ lastEnd q ≤ m.print_time ∧
    (lastEnd q < m.print_time → q.get_active_moves ≠ [] →
      ¬((prevMove q).print_time ≤ 0 ∧ MAX_NULL_MOVE < m.print_time))

/-- Every `add_move` in the sequence is well-behaved at the state where it
runs. -/
def goodAdds : TrapQueue → List Move → Prop
  | _, [] => True
  | q, m :: ms => goodAdd q m ∧ goodAdds (q.add_move m) ms

/-- A history entry is either kinematically non-null (so it passed the
`finalize_moves` filter) or a zero-duration `set_position` marker. -/
def histEntryOk (m : Move) : Prop := m.start_v ≠ 0 ∨ m.half_accel ≠ 0 ∨ m.move_t = 0

/-- The head sentinel created by `TrapQueue::new`. -/
def headSentinel : Move := { moveDefault with print_time := -1 }

/-- The tail sentinel value carried when no active segments exist. -/
def neverTail : Move := { moveDefault with print_time := NEVER_TIME, move_t := NEVER_TIME }

/-! ## Concrete fixtures for counterexamples and witnesses -/

/-- Fresh compressor configured like the unit tests: `oid = 1`,
`max_error = 10` ticks, `mcu_freq = 1000`. -/
def scBase : StepCompressor := (StepCompressor.new 1 10).set_time 0 1000

/-- `scBase` after an `append(1, 0.0, st)` whose step clock lands at
`2^31` was buffered (`(st + 0.0005) * 1000 = 2^31`): the pending step is
`2^31` ticks ahead with direction `1`. -/
def scFar : StepCompressor := { scBase with next_step_clock := some (2 ^ 31), next_step_dir := 1 }

/-- `scBase` after a step at clock 0 with direction 0 was buffered. -/
def scPend : StepCompressor := { scBase with next_step_clock := some 0, next_step_dir := 0 }

/-- `scBase` after one committed step left clock `3*2^28 - 5` in the queue
(still unflushed, `last_step_clock = 0`, direction already `1`) and a new
step at clock `3*2^28 + 10` was buffered: the buffered step is
`CLOCK_DIFF_MAX + 10` ticks beyond `last_step_clock`. -/
def scNear : StepCompressor :=
  { scBase with
      sdir := 1
      next_step_dir := 1
      queue := [3 * 2 ^ 28 - 5]
      next_step_clock := some (3 * 2 ^ 28 + 10) }

/-- A compressor with two queued steps, used to exercise
`compress_bisect_add` and `check_line` on a nonempty queue. -/
def scTwo : StepCompressor := { StepCompressor.new 1 10 with queue := [100, 200], sdir := 1 }

/-- A pending far step exactly `CLOCK_DIFF_MAX` ahead on an empty queue. -/
def scFarW : StepCompressor :=
  { (StepCompressor.new 2 10).set_time 0 1000 with
      sdir := 1
      next_step_dir := 1
      next_step_clock := some CLOCK_DIFF_MAX }

/-- A real segment on `[0, 1/2]` starting at the origin, moving along x. -/
def mA : Move :=
  { moveDefault with print_time := 0, move_t := 1 / 2, start_v := 1, axes_r := ⟨1, 0, 0⟩ }

/-- A real segment on `[2, 5/2]`: it leaves a `3/2`-second gap after `mA`. -/
def mB : Move :=
  { moveDefault with print_time := 2, move_t := 1 / 2, start_v := 1, axes_r := ⟨1, 0, 0⟩ }

/-- A malformed move: negative duration and a start time before the end of
the previously queued segment. -/
def mBad : Move := { moveDefault with print_time := 1 / 4, move_t := -1 }

/-! ## Theorems -/

/-- C1 counterexample: the far-point path of `queue_append_far` emits a
singleton `QueueStep` without running `check_line`.  Committing a buffered
step at clock `2^31` (reachable from a fresh compressor by one `append`
with a large `step_time`) emits a run with `interval = 2^31`, outside the
claimed range `[1, 2^31)`, so the claimed field bounds fail on this
emission. -/
theorem c1_counterexample :
    scFar.commit.toOption.map (fun r => (r.2, r.2.all runFieldsOk)) =
      some ([Command.setNextStepDir ⟨1, true, 0⟩,
            Command.queueStep ⟨1, 2 ^ 31, 2 ^ 31, 2 ^ 31, 1, 0, 2 ^ 31, 0⟩], false) := by
  decide

/-- C4 counterexample: `scNear` holds a buffered step at clock
`3*2^28 + 10`, which is at least `CLOCK_DIFF_MAX = 3*2^28` ticks beyond
`last_step_clock = 0`, yet committing it emits no standalone singleton run
for that step: the internal flush (to clock 11) drains the queued step at
`3*2^28 - 5` and advances `last_step_clock` past `next - CLOCK_DIFF_MAX`,
so the far step is simply pushed onto the queue; the only emitted
`QueueStep` has `first_clock = 3*2^28 - 5`. -/
theorem c4_counterexample :
    scNear.commit.toOption.map
        (fun r => ((queueStepsOf r.2).map QueueStep.first_clock, r.1.queue, r.1.last_step_clock,
          r.1.next_step_clock)) =
      some ([3 * 2 ^ 28 - 5], [3 * 2 ^ 28 + 10], 3 * 2 ^ 28 - 5, none) := by
  decide

/-- Helper: `append` with no buffered step only computes and buffers the
proposed step clock. -/
theorem append_pending_none (s : StepCompressor) (d : ℤ) (pt st : ℚ)
    (h : s.next_step_clock = none) :
    s.append d pt st =
      .ok ({ s with next_step_clock := some (s.append_step_clock pt st), next_step_dir := d },
        []) := by
  unfold StepCompressor.append
  rw [h]

/-- Helper: the fresh test compressor has
`last_step_print_time = -0.0005`. -/
theorem scBase_lspt : scBase.last_step_print_time = -(1 / 2000) := by
  norm_num [scBase, StepCompressor.set_time, StepCompressor.calc_last_step_print_time,
    StepCompressor.new]

/-- Helper: the `f64 as u64` cast truncates `0.5` to `0`. -/
theorem ratToU64_half : ratToU64 (1 / 2) = 0 := by
  rw [ratToU64]
  norm_num

/-- Helper: on the fresh test compressor, `append(_, 0.0, 0.0)` computes
step clock `0` (the code's `(step_time + (print_time -
last_step_print_time)) * mcu_freq` is `0.5`, truncated to `0`). -/
theorem scBase_clock_zero : scBase.append_step_clock 0 0 = 0 := by
  rw [StepCompressor.append_step_clock]
  rw [scBase_lspt]
  have hfreq : scBase.mcu_freq = 1000 := rfl
  have hlsc : scBase.last_step_clock = 0 := rfl
  rw [hfreq, hlsc]
  rw [show ((0 : ℚ) + (0 - -(1 / 2000))) * 1000 = 1 / 2 by norm_num]
  rw [ratToU64_half]

/-- C2 counterexample: on the fresh compressor (`mcu_freq = 1000`,
`last_step_clock = 0`, `last_step_print_time = -0.0005`), the claimed
double-offset formula
`round((step_time - lspt + (print_time - lspt)) * mcu_freq)` evaluates to
`1` at `append(1, 0.0, 0.0)`, so the claim predicts step clock
`last_step_clock + 1 = 1`; the code computes and buffers clock `0`
(single offset, truncation). -/
theorem c2_counterexample :
    (scBase.append 1 0 0).toOption.map (fun r => r.1.next_step_clock) = some (some 0) ∧
    scBase.last_step_clock = 0 ∧
    ((0 : ℚ) - scBase.last_step_print_time + (0 - scBase.last_step_print_time)) *
        scBase.mcu_freq = 1 := by
  refine ⟨?_, rfl, ?_⟩
  · rw [append_pending_none scBase 1 0 0 rfl, scBase_clock_zero]
    rfl
  · rw [scBase_lspt]
    show ((0 : ℚ) - -(1 / 2000) + (0 - -(1 / 2000))) * 1000 = 1
    norm_num

/-- C2 amended: `append` offsets only the `print_time` term by
`last_step_print_time` and truncates the product; because
`last_step_print_time` is maintained as
`mcu_time_offset + (last_step_clock - 0.5) / mcu_freq`, the buffered
absolute clock equals the nearest integer (half-up) to
`(step_time + print_time - mcu_time_offset) * mcu_freq`. -/
theorem c2_amended (s : StepCompressor) (d : ℤ) (pt st : ℚ)
    (hnone : s.next_step_clock = none)
    (hcanon : lsptCanonical s)
    (hfreq : 0 < s.mcu_freq)
    (hlow : 0 ≤ (st + (pt - s.last_step_print_time)) * s.mcu_freq)
    (hhigh : (st + (pt - s.last_step_print_time)) * s.mcu_freq < 2 ^ 64) :
    s.append d pt st =
      .ok ({ s with
          next_step_clock :=
            some (⌊(st + pt - s.mcu_time_offset) * s.mcu_freq + 1 / 2⌋.toNat)
          next_step_dir := d }, []) := by
  rw [append_pending_none s d pt st hnone]
  have hrel : (st + (pt - s.last_step_print_time)) * s.mcu_freq
      = (st + pt - s.mcu_time_offset) * s.mcu_freq + 1 / 2 - (s.last_step_clock : ℚ) := by
    rw [show s.last_step_print_time
        = s.mcu_time_offset + ((s.last_step_clock : ℚ) - 1 / 2) / s.mcu_freq from hcanon]
    field_simp
    ring
  have hclock : s.append_step_clock pt st
      = (⌊(st + pt - s.mcu_time_offset) * s.mcu_freq + 1 / 2⌋).toNat := by
    rw [StepCompressor.append_step_clock, ratToU64]
    rw [if_neg (not_lt.mpr hlow)]
    have hfl : ⌊(st + (pt - s.last_step_print_time)) * s.mcu_freq⌋
        = ⌊(st + pt - s.mcu_time_offset) * s.mcu_freq + 1 / 2⌋ - (s.last_step_clock : ℤ) := by
      rw [hrel]
      rw [show ((s.last_step_clock : ℕ) : ℚ) = ((s.last_step_clock : ℤ) : ℚ) by push_cast; ring]
      exact Int.floor_sub_int _ _
    have h0 : (0 : ℤ) ≤ ⌊(st + (pt - s.last_step_print_time)) * s.mcu_freq⌋ :=
      Int.le_floor.mpr (by exact_mod_cast hlow)
    have h64 : ⌊(st + (pt - s.last_step_print_time)) * s.mcu_freq⌋ < 2 ^ 64 :=
      Int.floor_lt.mpr (by exact_mod_cast hhigh)
    rw [hfl] at h0 h64 ⊢
    have : min (⌊(st + pt - s.mcu_time_offset) * s.mcu_freq + 1 / 2⌋ - (s.last_step_clock : ℤ)).toNat
        (2 ^ 64 - 1)
        = (⌊(st + pt - s.mcu_time_offset) * s.mcu_freq + 1 / 2⌋ - (s.last_step_clock : ℤ)).toNat := by
      omega
    rw [this]
    omega
  rw [hclock]

/-- C2 amended witness: `append(1, 0.0, 0.003)` on the fresh compressor
buffers clock `round(0.003 * 1000) = 3`. -/
theorem c2_amended_witness :
    scBase.append 1 0 (3 / 1000) =
      .ok ({ scBase with next_step_clock := some 3, next_step_dir := 1 }, []) := by
  have h := c2_amended scBase 1 0 (3 / 1000) rfl
    (by
      show scBase.last_step_print_time
        = scBase.mcu_time_offset + ((scBase.last_step_clock : ℚ) - 1 / 2) / scBase.mcu_freq
      rw [scBase_lspt]
      norm_num [show scBase.mcu_time_offset = 0 from rfl, show scBase.mcu_freq = 1000 from rfl,
        show scBase.last_step_clock = 0 from rfl])
    (by rw [show scBase.mcu_freq = 1000 from rfl]; norm_num)
    (by rw [scBase_lspt, show scBase.mcu_freq = 1000 from rfl]; norm_num)
    (by rw [scBase_lspt, show scBase.mcu_freq = 1000 from rfl]; norm_num)
  rw [show (⌊((3 : ℚ) / 1000 + 0 - scBase.mcu_time_offset) * scBase.mcu_freq + 1 / 2⌋).toNat = 3
      by rw [show scBase.mcu_time_offset = 0 from rfl, show scBase.mcu_freq = 1000 from rfl]
         rw [show ((3 : ℚ) / 1000 + 0 - 0) * 1000 + 1 / 2 = 7 / 2 by norm_num]
         rw [show ⌊(7 / 2 : ℚ)⌋ = 3 by norm_num]
         rfl] at h
  exact h
/-- Helper: the small-dead-slot filter branch of `append`: with a buffered
step of opposite direction within the filter window, both the buffered
clock and the new clock are dropped; only the new direction is recorded,
and a subsequent `commit` promotes nothing. -/
theorem append_sds_drop (s : StepCompressor) (c : ℕ) (d : ℤ) (pt st : ℚ)
    (hp : s.next_step_clock = some c)
    (hd : d ≠ s.next_step_dir)
    (hdiff : ((i64ofU64 (s.append_step_clock pt st) - i64ofU64 c : ℤ) : ℚ)
      < SDS_FILTER_TIME * s.mcu_freq) :
    s.append d pt st = .ok ({ s with next_step_clock := none, next_step_dir := d }, []) ∧
    StepCompressor.commit { s with next_step_clock := none, next_step_dir := d } =
      .ok ({ s with next_step_clock := none, next_step_dir := d }, []) := by
  constructor
  · simp only [StepCompressor.append, hp]
    rw [if_pos ⟨hd, hdiff⟩]
  · rfl

theorem scPend_clock_zero : scPend.append_step_clock 0 0 = 0 := scBase_clock_zero

/-- Helper: the concrete filter instance on `scPend`. -/
theorem scPend_sds :
    scPend.append 1 0 0 =
      .ok ({ scPend with next_step_clock := none, next_step_dir := 1 }, []) ∧
    StepCompressor.commit { scPend with next_step_clock := none, next_step_dir := 1 } =
      .ok ({ scPend with next_step_clock := none, next_step_dir := 1 }, []) :=
  append_sds_drop scPend 0 1 0 0 rfl (by decide)
    (by
      rw [scPend_clock_zero]
      show ((i64ofU64 0 - i64ofU64 0 : ℤ) : ℚ) < SDS_FILTER_TIME * scPend.mcu_freq
      rw [show scPend.mcu_freq = 1000 from rfl]
      norm_num [i64ofU64, SDS_FILTER_TIME])

/-- C3 counterexample: `scPend` holds a buffered step (clock 0, dir 0);
`append(1, 0.0, 0.0)` proposes an opposite-direction step 0 ticks away
(inside the 750 µs window).  The code clears the pending clock instead of
making the new step pending, and the following `commit; flush` emits no
`QueueStep` at all — the claim predicts the new step would be promoted. -/
theorem c3_counterexample :
    (scPend.append 1 0 0).toOption.map
        (fun r => (r.1.next_step_clock, r.1.next_step_dir, r.2)) = some (none, 1, []) ∧
    (runSC scPend [.app 1 0 0, .com, .fl (2 ^ 64 - 1)]).toOption.map
        (fun r => queueStepsOf r.2) = some [] := by
  refine ⟨?_, ?_⟩
  · rw [scPend_sds.1]
    rfl
  · have hrun : runSC scPend [.app 1 0 0, .com, .fl (2 ^ 64 - 1)] =
        .ok ({ scPend with next_step_clock := none, next_step_dir := 1 }, []) := by
      simp only [runSC, applySC, scPend_sds.1, scPend_sds.2]
      rfl
    rw [hrun]
    rfl

/-- C3 amended: when the newly proposed step has direction opposite to the
buffered step and lies within the SDS window, `append` discards the
buffered clock and records only the new direction (`next_step_clock`
becomes `none`, not the new clock), so a subsequent `commit` promotes
nothing: both steps are dropped. -/
theorem c3_amended (s : StepCompressor) (c : ℕ) (d : ℤ) (pt st : ℚ)
    (hp : s.next_step_clock = some c)
    (hd : d ≠ s.next_step_dir)
    (hdiff : ((i64ofU64 (s.append_step_clock pt st) - i64ofU64 c : ℤ) : ℚ)
      < SDS_FILTER_TIME * s.mcu_freq) :
    s.append d pt st = .ok ({ s with next_step_clock := none, next_step_dir := d }, []) ∧
    StepCompressor.commit { s with next_step_clock := none, next_step_dir := d } =
      .ok ({ s with next_step_clock := none, next_step_dir := d }, []) :=
  append_sds_drop s c d pt st hp hd hdiff

/-- C3 amended witness: the filter instance on `scPend`, obtained from the
amended theorem at the concrete input. -/
theorem c3_amended_witness :
    scPend.append 1 0 0 =
      .ok ({ scPend with next_step_clock := none, next_step_dir := 1 }, []) :=
  (c3_amended scPend 0 1 0 0 rfl (by decide)
    (by
      rw [scPend_clock_zero]
      show ((i64ofU64 0 - i64ofU64 0 : ℤ) : ℚ) < SDS_FILTER_TIME * scPend.mcu_freq
      rw [show scPend.mcu_freq = 1000 from rfl]
      norm_num [i64ofU64, SDS_FILTER_TIME])).1
/-- C4 amended: `queue_append_far` first flushes the queue up to
`next - CLOCK_DIFF_MAX + 1`; only if the pending step is still at least
`CLOCK_DIFF_MAX` beyond the (possibly advanced) `last_step_clock` does it
emit the standalone singleton run `(interval = next - last_step_clock,
count = 1, add = 0)` with `first_clock = last_clock = next`; otherwise the
step is appended to the queue and no singleton is emitted. -/
theorem c4_amended (s s1 : StepCompressor) (c : ℕ) (out1 : List Command)
    (hp : s.next_step_clock = some c)
    (hf : StepCompressor.queue_flush { s with next_step_clock := none }
      (c - CLOCK_DIFF_MAX + 1) = .ok (s1, out1)) :
    (s1.last_step_clock + CLOCK_DIFF_MAX ≤ c →
      s.queue_append_far =
        .ok ((s1.add_move c ⟨(c - s1.last_step_clock) % 2 ^ 32, 1, 0⟩).1.calc_last_step_print_time,
          out1 ++ [(s1.add_move c ⟨(c - s1.last_step_clock) % 2 ^ 32, 1, 0⟩).2])) ∧
    (c < s1.last_step_clock + CLOCK_DIFF_MAX →
      s.queue_append_far = .ok (s1.push_clock c, out1)) ∧
    (s1.add_move c ⟨(c - s1.last_step_clock) % 2 ^ 32, 1, 0⟩).2 =
      Command.queueStep ⟨s1.oid, c, c, (c - s1.last_step_clock) % 2 ^ 32, 1, 0,
        (if s1.last_step_clock + CLOCK_DIFF_MAX ≤ c then c else s1.last_step_clock),
        s1.last_step_clock⟩ := by
  refine ⟨?_, ?_, ?_⟩
  · intro h
    simp only [StepCompressor.queue_append_far, hp, hf]
    rw [if_pos h]
  · intro h
    simp only [StepCompressor.queue_append_far, hp, hf]
    rw [if_neg (not_le.mpr h)]
  · simp only [StepCompressor.add_move]
    norm_num

theorem c4_amended_witness :
    scFarW.queue_append_far.toOption.map (fun r => (r.2, r.1.last_step_clock, r.1.queue)) =
      some ([Command.queueStep
          ⟨2, CLOCK_DIFF_MAX, CLOCK_DIFF_MAX, CLOCK_DIFF_MAX, 1, 0, CLOCK_DIFF_MAX, 0⟩],
        CLOCK_DIFF_MAX, []) := by
  have h := c4_amended scFarW { scFarW with next_step_clock := none } CLOCK_DIFF_MAX [] rfl rfl
  rw [h.1 (by decide)]
  decide
theorem two_tri (k : ℕ) : 2 * tri k = k * (k - 1) := by
  induction k with
  | zero => rfl
  | succ n ih =>
    rw [tri, Nat.mul_add, ih]
    cases n with
    | zero => rfl
    | succ m => simp [Nat.succ_sub_one]; ring

/-- The recursive triangular number agrees with `k * (k - 1) / 2`. -/
theorem tri_eq (k : ℕ) : tri k = k * (k - 1) / 2 := by
  have h := two_tri k
  omega

theorem u16ofInt_le (x : ℤ) : u16ofInt x ≤ 65535 := by
  rw [u16ofInt]
  have h1 := Int.emod_nonneg x (show (2 ^ 16 : ℤ) ≠ 0 by norm_num)
  have h2 := Int.emod_lt_of_pos x (show (0 : ℤ) < 2 ^ 16 by norm_num)
  omega

theorem i16ofInt_range (x : ℤ) : -(2 ^ 15) ≤ i16ofInt x ∧ i16ofInt x < 2 ^ 15 := by
  rw [i16ofInt]
  have h1 := Int.emod_nonneg (x + 2 ^ 15) (show (2 ^ 16 : ℤ) ≠ 0 by norm_num)
  have h2 := Int.emod_lt_of_pos (x + 2 ^ 15) (show (0 : ℤ) < 2 ^ 16 by norm_num)
  omega

/-- Every early return of the inner compression loop carries an `as u16`
count and an `as i16` add. -/
theorem compress_inner_ret (s : StepCompressor) (qlast : ℕ) (add : ℤ) :
    ∀ (f : ℕ) (nmin nmax intv ncount : ℤ) (mv : StepMove),
      StepCompressor.compress_inner s qlast add f nmin nmax intv ncount = .ret mv →
      ∃ a b, mv = ⟨u32ofInt a, u16ofInt b, i16ofInt add⟩ := by
  intro f
  induction f with
  | zero =>
    intro nmin nmax intv ncount mv h
    simp [StepCompressor.compress_inner] at h
  | succ f ih =>
    intro nmin nmax intv ncount mv h
    simp only [StepCompressor.compress_inner] at h
    rcases ite_eq_iff.mp h with ⟨h1, h⟩ | ⟨h1, h⟩
    · cases h
      exact ⟨intv, ncount + 1 - 1, rfl⟩
    · rcases ite_eq_iff.mp h with ⟨h2, h⟩ | ⟨h2, h⟩
      · simp at h
      · exact ih _ _ _ _ _ h

theorem compress_finish_bounds (zi zc bi bc ba : ℤ) :
    (StepCompressor.compress_finish zi zc bi bc ba).count ≤ 65535 ∧
    -(2 ^ 15) ≤ (StepCompressor.compress_finish zi zc bi bc ba).add ∧
    (StepCompressor.compress_finish zi zc bi bc ba).add < 2 ^ 15 := by
  rw [StepCompressor.compress_finish]
  split
  · exact ⟨u16ofInt_le zc, by norm_num⟩
  · exact ⟨u16ofInt_le bc, i16ofInt_range ba⟩

theorem compress_outer_bounds (s : StepCompressor) (qlast : ℕ) :
    ∀ (f : ℕ) (omin omax add minadd maxadd bi bc ba br zi zc : ℤ) (mv : StepMove),
      StepCompressor.compress_outer s qlast f omin omax add minadd maxadd bi bc ba br zi zc =
        some mv →
      mv.count ≤ 65535 ∧ -(2 ^ 15) ≤ mv.add ∧ mv.add < 2 ^ 15 := by
  intro f
  induction f with
  | zero =>
    intro omin omax add minadd maxadd bi bc ba br zi zc mv h
    simp [StepCompressor.compress_outer] at h
  | succ f ih =>
    intro omin omax add minadd maxadd bi bc ba br zi zc mv h
    simp only [StepCompressor.compress_outer] at h
    split at h
    · cases h
    · rename_i hM
      cases h
      obtain ⟨a, b, hb⟩ := compress_inner_ret s qlast add _ _ _ _ _ _ hM
      rw [hb]
      exact ⟨u16ofInt_le b, i16ofInt_range add⟩
    · rcases ite_eq_iff.mp h with ⟨hA, h⟩ | ⟨hA, h⟩
      · cases h
        exact compress_finish_bounds _ _ _ _ _
      · rcases ite_eq_iff.mp h with ⟨hB, h⟩ | ⟨hB, h⟩
        · cases h
          exact compress_finish_bounds _ _ _ _ _
        · exact ih _ _ _ _ _ _ _ _ _ _ _ _ h

theorem compress_bisect_bounds (s : StepCompressor) (mv : StepMove)
    (h : s.compress_bisect_add = some mv) :
    mv.count ≤ 65535 ∧ -(2 ^ 15) ≤ mv.add ∧ mv.add < 2 ^ 15 := by
  rw [StepCompressor.compress_bisect_add] at h
  exact compress_outer_bounds s _ _ _ _ _ _ _ _ _ _ _ _ _ mv h
/-- Soundness of the per-point loop of `check_line`: if the loop accepts,
every remaining step's arithmetic-progression value lies in its
`minmax_point` interval. -/
theorem check_points_sound (s : StepCompressor) (mv : StepMove) :
    ∀ (n i : ℕ) (p intv : ℤ), StepCompressor.check_points s mv n i p intv = .ok () →
      ∀ j : ℕ, 1 ≤ j → j ≤ n →
        (s.minmax_point (s.queue_pos + i + j - 1)).minp
            ≤ p + intv * j + mv.add * (tri j : ℤ) ∧
        p + intv * j + mv.add * (tri j : ℤ)
            ≤ (s.minmax_point (s.queue_pos + i + j - 1)).maxp := by
  intro n
  induction n with
  | zero => intro i p intv h j h1 h2; omega
  | succ n ih =>
    intro i p intv h j h1 h2
    simp only [StepCompressor.check_points] at h
    rcases ite_eq_iff.mp h with ⟨hc, h⟩ | ⟨hc, h⟩
    · simp at h
    · rcases ite_eq_iff.mp h with ⟨hc2, h⟩ | ⟨hc2, h⟩
      · simp at h
      · push_neg at hc
        obtain ⟨k, rfl⟩ : ∃ k, j = k + 1 := ⟨j - 1, by omega⟩
        cases k with
        | zero =>
          have : s.queue_pos + i + (0 + 1) - 1 = s.queue_pos + i := by omega
          rw [this]
          simp only [tri, Nat.cast_zero, Nat.cast_one, mul_zero, mul_one, add_zero]
          omega
        | succ m =>
          have hrec := ih (i + 1) (p + intv) (intv + mv.add) h (m + 1) (by omega) (by omega)
          have hidx : s.queue_pos + (i + 1) + (m + 1) - 1
              = s.queue_pos + i + (m + 1 + 1) - 1 := by omega
          rw [hidx] at hrec
          have hval : p + intv + (intv + mv.add) * ((m + 1 : ℕ) : ℤ)
                + mv.add * (tri (m + 1) : ℤ)
              = p + intv * ((m + 1 + 1 : ℕ) : ℤ) + mv.add * (tri (m + 1 + 1) : ℤ) := by
            rw [show tri (m + 1 + 1) = tri (m + 1) + (m + 1) from rfl]
            push_cast
            ring
          rw [hval] at hrec
          exact hrec
/-- C1 amended: every run validated by `check_line` (as all runs emitted
through the `queue_flush` compression path are, with the `StepMove`
produced by `compress_bisect_add`) reconstructs every step `k ∈ [1, count]`
inside `[minp_k, maxp_k]`, has `interval < 2^31`, `count ∈ [1, 65535]` and
`add ∈ [-2^15, 2^15)` (the latter two by the `as u16` / `as i16` casts);
far-point singleton runs from `queue_append_far` bypass `check_line` and
can violate the interval bound (see the counterexample). -/
theorem c1_amended (s : StepCompressor) (mv : StepMove)
    (hc : s.compress_bisect_add = some mv)
    (hl : s.check_line mv = .ok ()) :
    (1 ≤ mv.count ∧ mv.count ≤ 65535) ∧
    (-(2 ^ 15) ≤ mv.add ∧ mv.add < 2 ^ 15) ∧
    mv.interval < 2 ^ 31 ∧
    ∀ k, 1 ≤ k → k ≤ mv.count →
      (s.minmax_point (s.queue_pos + k - 1)).minp ≤ reconstruct mv k ∧
      reconstruct mv k ≤ (s.minmax_point (s.queue_pos + k - 1)).maxp := by
  have hb := compress_bisect_bounds s mv hc
  rw [StepCompressor.check_line] at hl
  rcases ite_eq_iff.mp hl with ⟨hbad, hl⟩ | ⟨hok, hl⟩
  · simp at hl
  · push_neg at hok
    refine ⟨⟨by omega, hb.1⟩, ⟨hb.2.1, hb.2.2⟩, by omega, ?_⟩
    intro k hk1 hk2
    have h := check_points_sound s mv mv.count 0 0 (mv.interval : ℤ) hl k hk1 hk2
    rw [show s.queue_pos + 0 + k - 1 = s.queue_pos + k - 1 from by omega] at h
    rw [show (0 : ℤ) + (mv.interval : ℤ) * k + mv.add * (tri k : ℤ) = reconstruct mv k from by
      rw [reconstruct]; ring] at h
    exact h

/-- C1 amended witness: on `scTwo` (queued clocks 100 and 200, max_error
10), `compress_bisect_add` yields the run `(100, 2, 0)`, `check_line`
accepts it, and the reconstruction bound holds at both steps. -/
theorem c1_amended_witness :
    (1 ≤ (⟨100, 2, 0⟩ : StepMove).count ∧ (⟨100, 2, 0⟩ : StepMove).count ≤ 65535) ∧
    (-(2 ^ 15) ≤ (⟨100, 2, 0⟩ : StepMove).add ∧ (⟨100, 2, 0⟩ : StepMove).add < 2 ^ 15) ∧
    (⟨100, 2, 0⟩ : StepMove).interval < 2 ^ 31 ∧
    ∀ k, 1 ≤ k → k ≤ (⟨100, 2, 0⟩ : StepMove).count →
      (scTwo.minmax_point (scTwo.queue_pos + k - 1)).minp ≤ reconstruct ⟨100, 2, 0⟩ k ∧
      reconstruct ⟨100, 2, 0⟩ k ≤ (scTwo.minmax_point (scTwo.queue_pos + k - 1)).maxp :=
  c1_amended scTwo ⟨100, 2, 0⟩ (by decide) (by decide)
theorem add_move_next_step_clock (s : StepCompressor) (c : ℕ) (mv : StepMove) :
    (s.add_move c mv).1.next_step_clock = s.next_step_clock := rfl

/-- The drain loop of `queue_flush` never touches the buffered step, and
on success it has either reached `move_clock` or consumed the queue. -/
theorem queue_flush_loop_inv :
    ∀ (f : ℕ) (s : StepCompressor) (t : ℕ) (s' : StepCompressor) (out : List Command),
      StepCompressor.queue_flush_loop f s t = .ok (s', out) →
      s'.next_step_clock = s.next_step_clock ∧ s'.next_step_dir = s.next_step_dir ∧
        (¬ s'.last_step_clock < t ∨ (s'.queue = [] ∧ s'.queue_pos = 0)) := by
  intro f
  induction f with
  | zero => intro s t s' out h; simp [StepCompressor.queue_flush_loop] at h
  | succ f ih =>
    intro s t s' out h
    simp only [StepCompressor.queue_flush_loop] at h
    rcases ite_eq_iff.mp h with ⟨hlt, h⟩ | ⟨hlt, h⟩
    · split at h
      · cases h
      · split at h
        · cases h
        · rcases ite_eq_iff.mp h with ⟨hbrk, h⟩ | ⟨hbrk, h⟩
          · cases h
            exact ⟨rfl, rfl, Or.inr ⟨rfl, rfl⟩⟩
          · split at h
            · cases h
            · rename_i s2 out2 hrec
              cases h
              have hih := ih _ _ _ _ hrec
              exact hih
    · cases h
      exact ⟨rfl, rfl, Or.inl hlt⟩

/-- `calc_last_step_print_time` establishes the canonical print time. -/
theorem calc_lspt_canonical (s : StepCompressor) :
    lsptCanonical s.calc_last_step_print_time := rfl

/-- When the print time is canonical already, `calc_last_step_print_time`
changes nothing. -/
theorem calc_lspt_fixed (s : StepCompressor) (h : lsptCanonical s) :
    s.calc_last_step_print_time = s := by
  rw [StepCompressor.calc_last_step_print_time, ← h]

/-- After a successful `queue_flush`, the compressor is in a flushed
state and the buffered step is untouched. -/
theorem queue_flush_post (s : StepCompressor) (t : ℕ) (s' : StepCompressor)
    (out : List Command) (h : s.queue_flush t = .ok (s', out)) :
    flushedState t s' ∧ s'.next_step_clock = s.next_step_clock ∧
      s'.next_step_dir = s.next_step_dir := by
  simp only [StepCompressor.queue_flush] at h
  rcases ite_eq_iff.mp h with ⟨hle, h⟩ | ⟨hle, h⟩
  · cases h
    exact ⟨Or.inl hle, rfl, rfl⟩
  · split at h
    · cases h
    · rename_i s1 out1 hloop
      obtain ⟨hp, hd, hpost⟩ := queue_flush_loop_inv _ s t s1 out1 hloop
      by_cases hC : 0 < s1.calc_last_step_print_time.queue_pos ∧
          s1.calc_last_step_print_time.queue.length < s1.calc_last_step_print_time.queue_pos * 2
      · rw [if_pos hC] at h
        cases h
        refine ⟨?_, hp, hd⟩
        rcases hpost with hlsc | ⟨hq, hqp⟩
        · refine Or.inr ⟨hlsc, rfl, ?_⟩
          intro hx
          have h0 : (0 : ℕ) < 0 := hx.1
          omega
        · have h0 : 0 < s1.queue_pos := hC.1
          omega
      · rw [if_neg hC] at h
        cases h
        refine ⟨?_, hp, hd⟩
        rcases hpost with hlsc | ⟨hq, hqp⟩
        · exact Or.inr ⟨hlsc, calc_lspt_canonical s1, hC⟩
        · refine Or.inl ?_
          show s1.queue.length ≤ s1.queue_pos
          rw [hq, hqp]
          simp

/-- A flushed compressor flushes again to itself, emitting nothing. -/
theorem queue_flush_of_flushed (s : StepCompressor) (t : ℕ) (h : flushedState t s) :
    s.queue_flush t = .ok (s, []) := by
  simp only [StepCompressor.queue_flush]
  by_cases hle : s.queue.length ≤ s.queue_pos
  · rw [if_pos hle]
  · rw [if_neg hle]
    rcases h with hle2 | ⟨hlsc, hcan, hcomp⟩
    · exact absurd hle2 hle
    · have hloop : StepCompressor.queue_flush_loop (s.queue.length - s.queue_pos + 1) s t
          = .ok (s, []) := by
        simp only [StepCompressor.queue_flush_loop]
        rw [if_neg hlsc]
      simp only [hloop]
      have hfix : s.calc_last_step_print_time = s := calc_lspt_fixed s hcan
      rw [hfix]
      rw [if_neg hcomp]
theorem set_next_step_dir_pending (s : StepCompressor) (d : ℤ) (s' : StepCompressor)
    (out : List Command) (h : s.set_next_step_dir d = .ok (s', out)) :
    s'.next_step_clock = s.next_step_clock := by
  simp only [StepCompressor.set_next_step_dir] at h
  rcases ite_eq_iff.mp h with ⟨hd, h⟩ | ⟨hd, h⟩
  · cases h
    rfl
  · split at h
    · cases h
    · rename_i s1 out1 hqf
      cases h
      exact (queue_flush_post _ _ _ _ hqf).2.1

theorem queue_append_far_pending_none (s : StepCompressor) (s' : StepCompressor)
    (out : List Command) (h : s.queue_append_far = .ok (s', out)) :
    s'.next_step_clock = none := by
  simp only [StepCompressor.queue_append_far] at h
  split at h
  · cases h
  · split at h
    · cases h
    · rename_i s1 out1 hqf
      have h2 : s1.next_step_clock = none := (queue_flush_post _ _ _ _ hqf).2.1
      rcases ite_eq_iff.mp h with ⟨hfar, h⟩ | ⟨hfar, h⟩
      · cases h
        exact h2
      · cases h
        exact h2

theorem queue_append_extend_pending (s : StepCompressor) (s' : StepCompressor)
    (out : List Command) (h : s.queue_append_extend = .ok (s', out)) :
    s'.next_step_clock = s.next_step_clock := by
  simp only [StepCompressor.queue_append_extend] at h
  split at h
  · cases h
  · rename_i s1 out1 hstage
    cases h
    have h1 : s1.next_step_clock = s.next_step_clock := by
      rcases ite_eq_iff.mp hstage with ⟨hc, hstage⟩ | ⟨hc, hstage⟩
      · exact (queue_flush_post _ _ _ _ hstage).2.1
      · cases hstage
        rfl
    by_cases hA : 0 < s1.queue_pos
    · rw [if_pos hA]
      exact h1
    · rw [if_neg hA]
      by_cases hB : s1.queue.length = s1.queue_cap
      · rw [if_pos hB]
        exact h1
      · rw [if_neg hB]
        exact h1

theorem queue_append_pending_none (s : StepCompressor) (s' : StepCompressor)
    (out : List Command) (h : s.queue_append = .ok (s', out)) :
    s'.next_step_clock = none := by
  simp only [StepCompressor.queue_append] at h
  split at h
  · cases h
  · rename_i s1 out1 hstage
    split at h
    · cases h
    · rename_i c hc
      rcases ite_eq_iff.mp h with ⟨hfar, h⟩ | ⟨hfar, h⟩
      · split at h
        · cases h
        · rename_i s3 out2 hfarcall
          cases h
          exact queue_append_far_pending_none _ _ _ hfarcall
      · split at h
        · cases h
        · rename_i s4 out3 hext
          cases h
          have h4 : s4.next_step_clock = none := by
            rcases ite_eq_iff.mp hext with ⟨hcap, hext⟩ | ⟨hcap, hext⟩
            · exact queue_append_extend_pending _ _ _ hext
            · cases hext
              rfl
          exact h4
/-- C8: flushing twice at the same clock is
idempotent.  After `flush(t)` succeeds, the buffered step is gone or
beyond `t`, the queue is drained up to `t` (or empty), the print time is
canonical and the compaction is at a fixed point; a second `flush(t)`
therefore emits no commands and leaves the state unchanged. -/
theorem c8_flush_idempotent (s : StepCompressor) (t : ℕ) (s1 : StepCompressor)
    (out1 : List Command) (h : s.flush t = .ok (s1, out1)) :
    s1.flush t = .ok (s1, []) := by
  simp only [StepCompressor.flush] at h
  split at h
  · cases h
  · rename_i sA outA hstage
    split at h
    · cases h
    · rename_i s2 out2 hqf
      cases h
      have hpost := queue_flush_post _ _ _ _ hqf
      have hpend : s1.next_step_clock = sA.next_step_clock := hpost.2.1
      have hAp : s1.next_step_clock = none ∨ ∃ nc, s1.next_step_clock = some nc ∧ ¬ nc ≤ t := by
        rw [hpend]
        split at hstage
        · rename_i nc hnc
          rcases ite_eq_iff.mp hstage with ⟨hle, hstage⟩ | ⟨hle, hstage⟩
          · exact Or.inl (queue_append_pending_none _ _ _ hstage)
          · cases hstage
            exact Or.inr ⟨nc, hnc, hle⟩
        · cases hstage
          rename_i hnone
          exact Or.inl hnone
      have hqf2 : s1.queue_flush t = .ok (s1, []) := queue_flush_of_flushed _ _ hpost.1
      simp only [StepCompressor.flush]
      rcases hAp with hp | ⟨nc, hp, hnc2⟩
      · simp only [hp, hqf2]
        rfl
      · simp only [hp]
        rw [if_neg hnc2]
        simp only [hqf2]
        rfl
/-- C8 witness: on `scTwo` (two queued steps, clock 0) flushing to clock 0
emits nothing but recomputes the print time; flushing again at clock 0 is
the identity and emits nothing. -/
theorem c8_flush_idempotent_witness :
    (scTwo.calc_last_step_print_time).flush 0 =
      .ok (scTwo.calc_last_step_print_time, []) :=
  c8_flush_idempotent scTwo 0 scTwo.calc_last_step_print_time [] (by rfl)
/-- The protected initial region: the direction state is still the
`new` sentinel `-1` and the queue holds no un-flushed steps. -/
def protectedSC (s : StepCompressor) : Prop :=
  s.sdir = -1 ∧ s.queue.length ≤ s.queue_pos

/-- The buffered step's direction is one the solver passed: either no
step is buffered or `next_step_dir ∈ {0, 1}`. -/
def pendingDirOk (s : StepCompressor) : Prop :=
  s.next_step_clock = none ∨ s.next_step_dir = 0 ∨ s.next_step_dir = 1

/-- A queue with no un-flushed steps flushes to itself immediately. -/
theorem queue_flush_of_empty (s : StepCompressor) (t : ℕ)
    (hq : s.queue.length ≤ s.queue_pos) : s.queue_flush t = .ok (s, []) := by
  simp only [StepCompressor.queue_flush]
  rw [if_pos hq]

/-- From a protected state, `set_next_step_dir` with a different direction
emits exactly one `SetNextStepDir` command. -/
theorem set_next_step_dir_emits (s : StepCompressor) (d : ℤ)
    (hne : ¬ s.sdir = d) (hq : s.queue.length ≤ s.queue_pos) :
    s.set_next_step_dir d =
      .ok ({ s with sdir := d },
        [Command.setNextStepDir
          ⟨s.oid, if i32XorBit d s.invert_sdir = 0 then false else true,
            s.last_step_clock⟩]) := by
  simp only [StepCompressor.set_next_step_dir]
  rw [if_neg hne, queue_flush_of_empty s _ hq]
  rfl

/-- From a protected state whose buffered direction is a solver direction,
`queue_append` emits a `SetNextStepDir` as its first command. -/
theorem queue_append_snd_head (s : StepCompressor) (s' : StepCompressor)
    (out : List Command) (hsd : s.sdir = -1) (hq : s.queue.length ≤ s.queue_pos)
    (hd : s.next_step_dir = 0 ∨ s.next_step_dir = 1)
    (h : s.queue_append = .ok (s', out)) :
    ∃ c rest, out = c :: rest ∧ isSND c = true := by
  have hne : ¬ s.sdir = s.next_step_dir := by
    rcases hd with h0 | h0 <;> rw [hsd, h0] <;> decide
  have hne2 : s.next_step_dir ≠ s.sdir := fun hx => hne hx.symm
  have hsnd := set_next_step_dir_emits s s.next_step_dir hne hq
  simp only [StepCompressor.queue_append, if_pos hne2, hsnd] at h
  split at h
  · cases h
  · rename_i c hc
    rcases ite_eq_iff.mp h with ⟨hfar, h⟩ | ⟨hfar, h⟩
    · split at h
      · cases h
      · rename_i s3 out2 hfarcall
        cases h
        exact ⟨_, _, rfl, rfl⟩
    · split at h
      · cases h
      · rename_i s4 out3 hext
        cases h
        exact ⟨_, _, rfl, rfl⟩

/-- Each public operation with a solver direction keeps the
buffered-direction invariant. -/
theorem pendingDirOk_step (s : StepCompressor) (op : SCOp) (s' : StepCompressor)
    (out : List Command) (hop : dirOkOp op) (hpd : pendingDirOk s)
    (h : applySC s op = .ok (s', out)) : pendingDirOk s' := by
  cases op with
  | app d pt st =>
    simp only [applySC, StepCompressor.append] at h
    split at h
    · rename_i prev hprev
      rcases ite_eq_iff.mp h with ⟨hsds, h⟩ | ⟨hsds, h⟩
      · cases h
        exact Or.inl rfl
      · split at h
        · cases h
        · rename_i s1 out1 hqa
          cases h
          exact Or.inr hop
    · cases h
      exact Or.inr hop
  | com =>
    simp only [applySC, StepCompressor.commit] at h
    split at h
    · exact Or.inl (queue_append_pending_none _ _ _ h)
    · cases h
      exact hpd
  | fl t =>
    simp only [applySC, StepCompressor.flush] at h
    split at h
    · cases h
    · rename_i s1 out1 hstage
      split at h
      · cases h
      · rename_i s2 out2 hqf
        cases h
        have hpost := queue_flush_post _ _ _ _ hqf
        have hs1 : pendingDirOk s1 := by
          split at hstage
          · rename_i nc hnc
            rcases ite_eq_iff.mp hstage with ⟨hle, hstage⟩ | ⟨hle, hstage⟩
            · exact Or.inl (queue_append_pending_none _ _ _ hstage)
            · cases hstage
              exact hpd
          · cases hstage
            exact hpd
        simp only [pendingDirOk, hpost.2.1, hpost.2.2]
        exact hs1

/-- One protected step: either nothing is emitted and the state stays
protected, or the emitted commands start with a `SetNextStepDir`. -/
theorem protected_step (s : StepCompressor) (op : SCOp) (s' : StepCompressor)
    (out : List Command) (hprot : protectedSC s) (hpd : pendingDirOk s)
    (hop : dirOkOp op) (h : applySC s op = .ok (s', out)) :
    (out = [] ∧ protectedSC s') ∨ (∃ c rest, out = c :: rest ∧ isSND c = true) := by
  cases op with
  | app d pt st =>
    simp only [applySC, StepCompressor.append] at h
    split at h
    · rename_i prev hprev
      have hd : s.next_step_dir = 0 ∨ s.next_step_dir = 1 := by
        rcases hpd with hnone | hd
        · rw [hnone] at hprev
          cases hprev
        · exact hd
      rcases ite_eq_iff.mp h with ⟨hsds, h⟩ | ⟨hsds, h⟩
      · cases h
        exact Or.inl ⟨rfl, hprot.1, hprot.2⟩
      · split at h
        · cases h
        · rename_i s1 out1 hqa
          cases h
          exact Or.inr (queue_append_snd_head _ _ _ hprot.1 hprot.2 hd hqa)
    · cases h
      exact Or.inl ⟨rfl, hprot.1, hprot.2⟩
  | com =>
    simp only [applySC, StepCompressor.commit] at h
    split at h
    · rename_i prev hprev
      have hd : s.next_step_dir = 0 ∨ s.next_step_dir = 1 := by
        rcases hpd with hnone | hd
        · rw [hnone] at hprev
          cases hprev
        · exact hd
      exact Or.inr (queue_append_snd_head s s' out hprot.1 hprot.2 hd h)
    · cases h
      exact Or.inl ⟨rfl, hprot⟩
  | fl t =>
    simp only [applySC, StepCompressor.flush] at h
    split at h
    · cases h
    · rename_i s1 out1 hstage
      split at h
      · cases h
      · rename_i s2 out2 hqf
        cases h
        split at hstage
        · rename_i nc hnc
          have hd : s.next_step_dir = 0 ∨ s.next_step_dir = 1 := by
            rcases hpd with hnone | hd
            · rw [hnone] at hnc
              cases hnc
            · exact hd
          rcases ite_eq_iff.mp hstage with ⟨hle, hstage⟩ | ⟨hle, hstage⟩
          · obtain ⟨c, restc, hout1, hc⟩ :=
              queue_append_snd_head s s1 out1 hprot.1 hprot.2 hd hstage
            refine Or.inr ⟨c, restc ++ out2, ?_, hc⟩
            rw [hout1]
            rfl
          · cases hstage
            rw [queue_flush_of_empty s t hprot.2] at hqf
            cases hqf
            exact Or.inl ⟨rfl, hprot⟩
        · cases hstage
          rw [queue_flush_of_empty s t hprot.2] at hqf
          cases hqf
          exact Or.inl ⟨rfl, hprot⟩

/-- Once a `SetNextStepDir` is in the stream, appending anything keeps
the prologue property. -/
theorem dirBeforeStep_append_of_snd (out more : List Command)
    (h1 : dirBeforeStep out = true) (h2 : containsSND out = true) :
    dirBeforeStep (out ++ more) = true := by
  induction out with
  | nil => simp [containsSND] at h2
  | cons c rest ih =>
    by_cases hc : isSND c = true
    · simp [dirBeforeStep, hc]
    · rw [List.cons_append]
      simp only [dirBeforeStep] at h1 ⊢
      rw [if_neg hc] at h1 ⊢
      rw [Bool.and_eq_true] at h1 ⊢
      have h2' : containsSND rest = true := by
        simp only [containsSND, List.any_cons, Bool.or_eq_true] at h2
        rcases h2 with hx | hx
        · exact absurd hx hc
        · exact hx
      exact ⟨h1.1, ih h1.2 h2'⟩

/-- Appending a stream that starts with a `SetNextStepDir` to a clean
prologue keeps the prologue property. -/
theorem dirBeforeStep_append_snd_head (out : List Command) (c : Command)
    (more : List Command) (h1 : dirBeforeStep out = true)
    (hns : containsSND out = false) (hc : isSND c = true) :
    dirBeforeStep (out ++ c :: more) = true := by
  induction out with
  | nil => simp [dirBeforeStep, hc]
  | cons a rest ih =>
    have hns' : isSND a = false ∧ containsSND rest = false := by
      simp only [containsSND, List.any_cons, Bool.or_eq_false_iff] at hns
      exact hns
    have ha : ¬ isSND a = true := by
      rw [hns'.1]
      decide
    rw [List.cons_append]
    simp only [dirBeforeStep] at h1 ⊢
    rw [if_neg ha] at h1 ⊢
    rw [Bool.and_eq_true] at h1 ⊢
    exact ⟨h1.1, ih h1.2 hns'.2⟩

/-- The prologue invariant, threaded through a run: the commands emitted
so far form a clean prologue, and either a `SetNextStepDir` has been
emitted or the compressor is still protected. -/
theorem runSC_dir_inv :
    ∀ (ops : List SCOp) (s : StepCompressor) (out0 : List Command),
      (∀ op ∈ ops, dirOkOp op) →
      dirBeforeStep out0 = true →
      (containsSND out0 = true ∨ protectedSC s) →
      pendingDirOk s →
      ∀ (s' : StepCompressor) (more : List Command),
        runSC s ops = .ok (s', more) → dirBeforeStep (out0 ++ more) = true := by
  intro ops
  induction ops with
  | nil =>
    intro s out0 _ hd _ _ s' more h
    simp only [runSC] at h
    cases h
    simpa using hd
  | cons op ops ih =>
    intro s out0 hops hd hsnd hpd s' more h
    simp only [runSC] at h
    split at h
    · cases h
    · rename_i s1 out1 happ
      split at h
      · cases h
      · rename_i _ _ hrec
        cases h
        have hop : dirOkOp op := hops op (List.mem_cons_self op ops)
        have hops' : ∀ o ∈ ops, dirOkOp o := fun o ho => hops o (List.mem_cons_of_mem op ho)
        have hpd1 : pendingDirOk s1 := pendingDirOk_step s op s1 out1 hop hpd happ
        rw [← List.append_assoc]
        by_cases hcs : containsSND out0 = true
        · have hd1 : dirBeforeStep (out0 ++ out1) = true :=
            dirBeforeStep_append_of_snd _ _ hd hcs
          have hcs1 : containsSND (out0 ++ out1) = true := by
            simp only [containsSND, List.any_append, Bool.or_eq_true]
            exact Or.inl hcs
          exact ih s1 (out0 ++ out1) hops' hd1 (Or.inl hcs1) hpd1 _ _ hrec
        · have hprot : protectedSC s := by
            rcases hsnd with hx | hx
            · exact absurd hx hcs
            · exact hx
          rcases protected_step s op s1 out1 hprot hpd hop happ with
            ⟨hnil, hprot1⟩ | ⟨c, restc, hout, hc⟩
          · rw [hnil, List.append_nil]
            exact ih s1 out0 hops' hd (Or.inr hprot1) hpd1 _ _ hrec
          · have hcs0 : containsSND out0 = false := by
              cases hx : containsSND out0
              · rfl
              · exact absurd hx hcs
            have hd1 : dirBeforeStep (out0 ++ out1) = true := by
              rw [hout]
              exact dirBeforeStep_append_snd_head out0 c restc hd hcs0 hc
            have hcs1 : containsSND (out0 ++ out1) = true := by
              rw [hout]
              simp [containsSND, hc]
            exact ih s1 (out0 ++ out1) hops' hd1 (Or.inl hcs1) hpd1 _ _ hrec

/-- C9: on a freshly constructed compressor, any successful run of
`append` calls with solver directions (0 or 1) interleaved with `commit`
and `flush` emits a `SetNextStepDir` command before the first
`QueueStep` command: the prefix of the output before the first
`SetNextStepDir` holds no `QueueStep`. -/
theorem c9_dir_prologue (oid me : ℕ) (ops : List SCOp)
    (hops : ∀ op ∈ ops, dirOkOp op) (s' : StepCompressor) (out : List Command)
    (h : runSC (StepCompressor.new oid me) ops = .ok (s', out)) :
    dirBeforeStep out = true := by
  have hmain := runSC_dir_inv ops (StepCompressor.new oid me) [] hops rfl
    (Or.inr ⟨rfl, Nat.le_refl 0⟩) (Or.inl rfl) s' out h
  simpa using hmain

/-- C9 witness: a `commit` and a `flush` on the fresh compressor succeed
and emit nothing, so the (empty) output is a clean prologue. -/
theorem c9_dir_prologue_witness : dirBeforeStep [] = true :=
  c9_dir_prologue 1 10 [.com, .fl 5]
    (by
      intro op hop
      simp only [List.mem_cons, List.not_mem_nil, or_false] at hop
      rcases hop with rfl | rfl <;> trivial)
    _ [] (by rfl)
/-- The last element of `l ++ [b]` is `b`. -/
theorem getLastD_concat (l : List Move) (b d : Move) : (l ++ [b]).getLastD d = b := by
  rw [List.getLastD_eq_getLast?, List.getLast?_concat]
  rfl

theorem insert_before_tail_dropLast (l : List Move) (x : Move) :
    (insert_before_tail l x).dropLast = l.dropLast ++ [x] := by
  rw [insert_before_tail]
  exact List.dropLast_concat

theorem insert_before_tail_getLastD (l : List Move) (x : Move) :
    (insert_before_tail l x).getLastD moveDefault = l.getLastD moveDefault := by
  rw [insert_before_tail]
  exact getLastD_concat _ _ _

/-- Whether or not a null-fill segment was inserted, the tail sentinel is
unchanged. -/
theorem ite_insert_getLastD (c : Prop) [Decidable c] (l : List Move) (x : Move) :
    (if c then insert_before_tail l x else l).getLastD moveDefault =
      l.getLastD moveDefault := by
  split
  · exact insert_before_tail_getLastD l x
  · rfl

theorem modify_tail_eq (l : List Move) (f : Move → Move) :
    modify_tail l f = l.dropLast ++ [f (l.getLastD moveDefault)] := rfl

theorem exists_concat_two (l : List Move) (a b : Move) :
    ∃ pre, l ++ ([a] ++ [b]) = pre ++ [a, b] := ⟨l, rfl⟩

/-- C6 amended: `add_move` is total and never rejects: for every queue and
every move `m` — including one with negative `move_t` or a `print_time`
before the end of the last queued segment — the move list ends with `m`
followed by the zeroed tail sentinel, and the history is untouched.  The
source `add_move` returns no `Result`; no MalformedPlan-kind error
exists. -/
theorem c6_amended (q : TrapQueue) (m : Move) :
    (∃ pre, (q.add_move m).moves =
      pre ++ [m, { q.moves.getLastD moveDefault with print_time := 0, move_t := 0 }]) ∧
    (q.add_move m).history = q.history := by
  constructor
  · simp only [TrapQueue.add_move, modify_tail_eq, insert_before_tail_dropLast,
      insert_before_tail_getLastD, ite_insert_getLastD]
    rw [List.append_assoc]
    exact exists_concat_two _ _ _
  · rfl

/-- C6 counterexample: `mBad` has negative duration (`move_t = -1`) and
starts at `1/4`, before the end (`1/2`) of the previously queued segment
`mA`; the claimed MalformedPlan rejection does not happen: the queue
changes and `mBad` shows up as the last active move. -/
theorem c6_counterexample :
    ((TrapQueue.new.add_move mA).add_move mBad).get_active_moves =
      [⟨-1, 1, 0, 0, ⟨0, 0, 0⟩, ⟨0, 0, 0⟩⟩, mA, mBad] := by
  norm_num [TrapQueue.add_move, TrapQueue.new, TrapQueue.get_active_moves,
    insert_before_tail, modify_tail, MAX_NULL_MOVE, NEVER_TIME, mA, mBad, moveDefault]

/-- The concrete trap queue built by adding `mA` then `mB`: `add_move`
fills the initial `[-1, 0)` hole, then the capped null-fill branch inserts
a fill segment on `[1, 2)` only, leaving the `(1/2, 1)` hole open. -/
theorem runTq_mAmB :
    runTq TrapQueue.new [.add mA, .add mB] =
      ⟨[headSentinel, ⟨-1, 1, 0, 0, ⟨0, 0, 0⟩, ⟨0, 0, 0⟩⟩, mA,
        ⟨1, 1, 0, 0, ⟨0, 0, 0⟩, ⟨0, 0, 0⟩⟩, mB, moveDefault], []⟩ := by
  norm_num [runTq, applyTq, TrapQueue.add_move, TrapQueue.new, insert_before_tail,
    modify_tail, MAX_NULL_MOVE, NEVER_TIME, mA, mB, moveDefault, headSentinel]

/-- C10: `extract_old` does return a null move (zero `start_v`, zero
`accel`) from the active region: on the queue built by `add_move mA` and
`add_move mB` the window `[1/2, 3/2]` overlaps the `[1, 2)` fill segment,
and the first returned pull-move is the null fill (`start_v = 0`,
`accel = 0`); only the transfer into history filters nulls: after
`finalize_moves` evicts everything, the history holds exactly the two real
segments, both with `start_v = 1`, `half_accel = 0`. -/
theorem c10_null_from_active :
    (runTq TrapQueue.new [.add mA, .add mB]).extract_old 10 (1 / 2) (3 / 2) =
      [⟨1, 1, 0, 0, 0, 0, 0, 0, 0, 0⟩, ⟨0, 1 / 2, 1, 0, 0, 0, 0, 1, 0, 0⟩] ∧
    ((runTq TrapQueue.new [.add mA, .add mB]).finalize_moves 3 0).history.map
        (fun m => (m.start_v, m.half_accel)) = [(1, 0), (1, 0)] := by
  rw [runTq_mAmB]
  constructor
  · norm_num [TrapQueue.extract_old, TrapQueue.extract_loop, pull_of, mA, mB,
      moveDefault, headSentinel]
  · norm_num [TrapQueue.finalize_moves, TrapQueue.finalize_loop, TrapQueue.trim_loop,
      modify_tail, NEVER_TIME, mA, mB, moveDefault, headSentinel]

/-- C5 counterexample: `mA` and `mB` have non-decreasing `print_time` and
non-negative durations, yet the active segments after the two `add_move`
calls are not gap-free: the capped null-fill covers only `[1, 2)`, so
`mA`'s end `1/2` differs from the fill's start `1`. -/
theorem c5_counterexample :
    (runTq TrapQueue.new [.add mA, .add mB]).get_active_moves.map
        (fun m => (m.print_time, m.move_t)) =
      [(-1, 1), (0, 1 / 2), (1, 1), (2, 1 / 2)] ∧
    ¬ segChain (runTq TrapQueue.new [.add mA, .add mB]).get_active_moves := by
  rw [runTq_mAmB]
  constructor
  · norm_num [TrapQueue.get_active_moves, mA, mB, moveDefault, headSentinel]
  · intro hch
    simp only [TrapQueue.get_active_moves, segChain] at hch
    norm_num [List.chain'_cons, mA, mB, moveDefault, headSentinel] at hch
/-- The eviction loop only pushes kinematically non-null moves onto the
history. -/
theorem finalize_loop_hist (pt : ℚ) :
    ∀ (f : ℕ) (ms h : List Move), (∀ m ∈ h, histEntryOk m) →
      ∀ m ∈ (TrapQueue.finalize_loop pt f ms h).2, histEntryOk m := by
  intro f
  induction f with
  | zero => intro ms h hh m hm; exact hh m hm
  | succ f ih =>
    intro ms h hh m hm
    simp only [TrapQueue.finalize_loop] at hm
    split at hm
    · split at hm
      · exact hh m hm
      · refine ih _ _ ?_ m hm
        intro x hx
        split at hx
        · rename_i hc
          rcases List.mem_cons.mp hx with hxe | hxr
          · subst hxe
            rcases hc with hc | hc
            · exact Or.inl hc
            · exact Or.inr (Or.inl hc)
          · exact hh x hxr
        · exact hh x hx
    · exact hh m hm

/-- The history-trimming loop only drops entries. -/
theorem trim_loop_hist (latest : Move) (c : ℚ) :
    ∀ (f : ℕ) (h : List Move), (∀ m ∈ h, histEntryOk m) →
      ∀ m ∈ TrapQueue.trim_loop latest c f h, histEntryOk m := by
  intro f
  induction f with
  | zero => intro h hh m hm; exact hh m hm
  | succ f ih =>
    intro h hh m hm
    simp only [TrapQueue.trim_loop] at hm
    split at hm
    · split at hm
      · exact hh m hm
      · split at hm
        · exact hh m hm
        · refine ih _ ?_ m hm
          intro x hx
          exact hh x ((List.dropLast_sublist _).subset hx)
    · exact hh m hm

/-- `finalize_moves` keeps every history entry non-null or zero-length. -/
theorem finalize_moves_hist (q : TrapQueue) (pt c : ℚ)
    (hh : ∀ m ∈ q.history, histEntryOk m) :
    ∀ m ∈ (q.finalize_moves pt c).history, histEntryOk m := by
  intro m hm
  simp only [TrapQueue.finalize_moves] at hm
  split at hm
  · exact trim_loop_hist _ _ _ _ (finalize_loop_hist pt _ _ _ hh) m hm
  · exact finalize_loop_hist pt _ _ _ hh m hm

/-- The `set_position` truncation keeps every history entry non-null or
zero-length: an entry it shortens has nonzero velocity or acceleration,
since a zero-length entry never straddles the cut point. -/
theorem trunc_loop_hist (pt : ℚ) :
    ∀ (h : List Move), (∀ m ∈ h, histEntryOk m) →
      ∀ m ∈ TrapQueue.trunc_loop pt h, histEntryOk m := by
  intro h
  induction h with
  | nil => intro hh m hm; simp [TrapQueue.trunc_loop] at hm
  | cons f rest ih =>
    intro hh m hm
    simp only [TrapQueue.trunc_loop] at hm
    split at hm
    · rename_i hlt
      rcases List.mem_cons.mp hm with hme | hmr
      · have hf := hh f (List.mem_cons_self f rest)
        split at hme
        · rename_i hin
          subst hme
          rcases hf with h1 | h2 | h3
          · exact Or.inl h1
          · exact Or.inr (Or.inl h2)
          · rw [h3] at hin
            exact absurd hin (by linarith)
        · subst hme
          exact hf
      · exact hh m (List.mem_cons_of_mem f hmr)
    · exact ih (fun x hx => hh x (List.mem_cons_of_mem f hx)) m hm

/-- `set_position` pushes a zero-duration marker and otherwise only
truncates existing entries. -/
theorem set_position_hist (q : TrapQueue) (pt x y z : ℚ)
    (hh : ∀ m ∈ q.history, histEntryOk m) :
    ∀ m ∈ (q.set_position pt x y z).history, histEntryOk m := by
  intro m hm
  simp only [TrapQueue.set_position] at hm
  rcases List.mem_cons.mp hm with hme | hmr
  · subst hme
    exact Or.inr (Or.inr rfl)
  · exact trunc_loop_hist pt _ (finalize_moves_hist q NEVER_TIME 0 hh) m hmr

/-- Whether or not a segment is inserted, the history is untouched. -/
theorem ite_add_history (c : Prop) [Decidable c] (q : TrapQueue) (m : Move) :
    (if c then q.add_move m else q).history = q.history := by
  split <;> rfl

/-- `append` never touches the history. -/
theorem append_history (q : TrapQueue)
    (pt at_ ct dt px py pz rx ry rz sv cv ac : ℚ) :
    (q.append pt at_ ct dt px py pz rx ry rz sv cv ac).history = q.history := by
  simp only [TrapQueue.append, ite_add_history]

/-- The history invariant threaded through a run of public operations. -/
theorem runTq_hist (ops : List TqOp) :
    ∀ (q : TrapQueue), (∀ m ∈ q.history, histEntryOk m) →
      ∀ m ∈ (runTq q ops).history, histEntryOk m := by
  induction ops with
  | nil => intro q hh; exact hh
  | cons op ops ih =>
    intro q hh
    have hstep : ∀ m ∈ (applyTq q op).history, histEntryOk m := by
      cases op with
      | add m0 => exact hh
      | appendTrap pt at_ ct dt px py pz rx ry rz sv cv ac =>
        intro m hm
        rw [applyTq, append_history] at hm
        exact hh m hm
      | fin t c => exact finalize_moves_hist q t c hh
      | setp t x y z => exact set_position_hist q t x y z hh
    exact ih (applyTq q op) hstep

/-- C7 corrected: extract_old can return a null-valued move drawn from the
history: the `set_position` marker is null-valued (zero `start_v`, zero
`half_accel`) and sits in history.  What is true is weaker: every history
entry of a queue reachable from `TrapQueue::new` through the public
operations is either kinematically non-null (it passed the
`finalize_moves` filter, possibly truncated) or is a zero-duration
`set_position` marker; so any null-valued pull extracted from history has
`move_t = 0`. -/
theorem c7_amended (ops : List TqOp) (m : Move)
    (hm : m ∈ (runTq TrapQueue.new ops).history) : histEntryOk m := by
  refine runTq_hist ops TrapQueue.new ?_ m hm
  intro x hx
  simp [TrapQueue.new] at hx
/-- Helper: `set_position(1, (1,2,3))` on the fresh queue leaves exactly
the zero-duration marker in history. -/
theorem setp_history :
    (runTq TrapQueue.new [.setp 1 1 2 3]).history =
      [⟨1, 0, 0, 0, ⟨1, 2, 3⟩, ⟨0, 0, 0⟩⟩] := by
  norm_num [runTq, applyTq, TrapQueue.set_position, TrapQueue.finalize_moves,
    TrapQueue.finalize_loop, TrapQueue.trim_loop, TrapQueue.trunc_loop,
    TrapQueue.new, modify_tail, moveDefault, NEVER_TIME]

/-- C7 counterexample: after `set_position(1, (1,2,3))` on a fresh queue,
the active region is empty (only the two sentinels remain), yet
`extract_old(10, 0, 2)` returns the history marker — a null-valued move
(`start_v = 0`, `accel = 0`) drawn from the history region. -/
theorem c7_counterexample :
    (TrapQueue.new.set_position 1 1 2 3).extract_old 10 0 2 =
      [⟨1, 0, 0, 0, 1, 2, 3, 0, 0, 0⟩] ∧
    (TrapQueue.new.set_position 1 1 2 3).moves.length = 2 := by
  norm_num [TrapQueue.set_position, TrapQueue.finalize_moves,
    TrapQueue.finalize_loop, TrapQueue.trim_loop, TrapQueue.trunc_loop,
    TrapQueue.new, TrapQueue.extract_old, TrapQueue.extract_loop, pull_of,
    modify_tail, moveDefault, NEVER_TIME]

/-- C7 amended witness: the `set_position` marker in the history of the
concrete run is a zero-duration entry, hence `histEntryOk`. -/
theorem c7_amended_witness : histEntryOk ⟨1, 0, 0, 0, ⟨1, 2, 3⟩, ⟨0, 0, 0⟩⟩ :=
  c7_amended [.setp 1 1 2 3] _ (by rw [setp_history]; exact List.mem_singleton.mpr rfl)
theorem getLastD_of_getLast? (l : List Move) (x d : Move) (h : l.getLast? = some x) :
    l.getLastD d = x := by
  rw [List.getLastD_eq_getLast?, h]
  rfl

theorem dropLast_shape (h : Move) (mid : List Move) (t : Move) :
    (h :: (mid ++ [t])).dropLast = h :: mid := by
  rw [show h :: (mid ++ [t]) = (h :: mid) ++ [t] from rfl]
  exact List.dropLast_concat

theorem getLastD_shape (h : Move) (mid : List Move) (t : Move) :
    (h :: (mid ++ [t])).getLastD moveDefault = t := by
  rw [show h :: (mid ++ [t]) = (h :: mid) ++ [t] from rfl]
  exact getLastD_concat _ _ _

theorem modify_tail_getLastD (l : List Move) (f : Move → Move) :
    (modify_tail l f).getLastD moveDefault = f (l.getLastD moveDefault) := by
  rw [modify_tail_eq]
  exact getLastD_concat _ _ _

/-- The element the source reads as `moves[tail_idx - 1]`, on a list in
sentinel shape. -/
theorem getD_head_concat :
    ∀ (mid : List Move) (h t d : Move),
      (h :: (mid ++ [t])).getD ((h :: (mid ++ [t])).length - 2) d = mid.getLastD h := by
  intro mid
  induction mid with
  | nil => intro h t d; rfl
  | cons a mid ih =>
    intro h t d
    have hlen : (h :: ((a :: mid) ++ [t])).length - 2 =
        ((a :: mid) ++ [t]).length - 2 + 1 := by
      simp only [List.length_cons, List.length_append, List.length_singleton]
      omega
    rw [hlen, List.getD_cons_succ, List.getLastD_cons]
    exact ih a t d

theorem prevMove_shape (q : TrapQueue) (mid : List Move) (t : Move)
    (hq : q.moves = headSentinel :: (mid ++ [t])) :
    prevMove q = mid.getLastD headSentinel := by
  rw [prevMove, hq]
  exact getD_head_concat mid headSentinel t moveDefault

theorem active_shape (q : TrapQueue) (mid : List Move) (t : Move)
    (hq : q.moves = headSentinel :: (mid ++ [t])) :
    q.get_active_moves = mid := by
  rw [TrapQueue.get_active_moves, hq]
  split
  · rename_i hle
    have hlen : mid.length = 0 := by
      simp only [List.length_cons, List.length_append, List.length_singleton] at hle
      omega
    rw [List.eq_nil_of_length_eq_zero hlen]
  · simp only [List.drop_succ_cons, List.drop_zero]
    exact List.dropLast_concat

/-- Extending a gap-free chain by one segment that starts at the chain's
end. -/
theorem segChain_append_one (l : List Move) (m : Move) (hc : segChain l)
    (hlink : ∀ x, l.getLast? = some x → x.print_time + x.move_t = m.print_time) :
    segChain (l ++ [m]) := by
  rw [segChain, List.chain'_append]
  refine ⟨hc, List.chain'_singleton m, ?_⟩
  intro x hx y hy
  have hy' : m = y := by simpa using hy
  subst hy'
  exact hlink x (by simpa using hx)

/-- `add_move` without a gap: the move is inserted right before the tail
sentinel and the sentinel is zeroed. -/
theorem add_move_eq_nogap (q : TrapQueue) (m : Move) (mid : List Move) (t : Move)
    (hq : q.moves = headSentinel :: (mid ++ [t]))
    (hgap : ¬ lastEnd q < m.print_time) :
    (q.add_move m).moves =
      headSentinel :: ((mid ++ [m]) ++ [{ t with print_time := 0, move_t := 0 }]) := by
  have hgap' : ¬ ((q.moves.getD (q.moves.length - 2) moveDefault).print_time +
      (q.moves.getD (q.moves.length - 2) moveDefault).move_t < m.print_time) := hgap
  have hdl : q.moves.dropLast = headSentinel :: mid := by
    rw [hq]; exact dropLast_shape _ _ _
  have hgl : q.moves.getLastD moveDefault = t := by
    rw [hq]; exact getLastD_shape _ _ _
  simp only [TrapQueue.add_move, if_neg hgap']
  rw [modify_tail_eq, insert_before_tail_dropLast, insert_before_tail_getLastD,
    hdl, hgl]
  simp only [List.cons_append, List.append_assoc]

/-- `add_move` with a gap: a null fill segment is inserted first; its
start `npt` is the previous end unless the capped branch fires. -/
theorem add_move_eq_gap (q : TrapQueue) (m : Move) (mid : List Move) (t : Move)
    (hq : q.moves = headSentinel :: (mid ++ [t]))
    (hgap : lastEnd q < m.print_time) :
    ∃ npt,
      (q.add_move m).moves =
        headSentinel ::
          (((mid ++ [{ moveDefault with
              start_pos := m.start_pos, print_time := npt,
              move_t := m.print_time - npt }]) ++ [m]) ++
            [{ t with print_time := 0, move_t := 0 }]) ∧
      (¬((prevMove q).print_time ≤ 0 ∧ MAX_NULL_MOVE < m.print_time) →
        npt = lastEnd q) := by
  refine ⟨if (prevMove q).print_time ≤ 0 ∧ MAX_NULL_MOVE < m.print_time
      then m.print_time - MAX_NULL_MOVE else lastEnd q, ?_, ?_⟩
  · have hgap' : (q.moves.getD (q.moves.length - 2) moveDefault).print_time +
        (q.moves.getD (q.moves.length - 2) moveDefault).move_t < m.print_time := hgap
    have hdl : q.moves.dropLast = headSentinel :: mid := by
      rw [hq]; exact dropLast_shape _ _ _
    have hgl : q.moves.getLastD moveDefault = t := by
      rw [hq]; exact getLastD_shape _ _ _
    simp only [TrapQueue.add_move, if_pos hgap']
    rw [modify_tail_eq, insert_before_tail_dropLast, insert_before_tail_getLastD,
      insert_before_tail_dropLast, insert_before_tail_getLastD, hdl, hgl]
    simp only [List.cons_append, List.append_assoc]
    rfl
  · intro hncap
    rw [if_neg hncap]

/-- The sentinel-shape and gap-free-chain invariant of a fold of
well-behaved `add_move` calls. -/
theorem addedQueue_inv :
    ∀ (adds : List Move) (q : TrapQueue) (mid : List Move) (t : Move),
      q.moves = headSentinel :: (mid ++ [t]) → segChain mid → goodAdds q adds →
      ∃ mid2 t2,
        (adds.foldl TrapQueue.add_move q).moves = headSentinel :: (mid2 ++ [t2]) ∧
        segChain mid2 ∧
        ((adds = [] ∧ mid2 = mid ∧ t2 = t) ∨ (t2.print_time = 0 ∧ mid2 ≠ [])) := by
  intro adds
  induction adds with
  | nil =>
    intro q mid t hq hc _
    exact ⟨mid, t, hq, hc, Or.inl ⟨rfl, rfl, rfl⟩⟩
  | cons m ms ih =>
    intro q mid t hq hc hg
    obtain ⟨hgood, hgs⟩ := hg
    show ∃ mid2 t2, (ms.foldl TrapQueue.add_move (q.add_move m)).moves =
      headSentinel :: (mid2 ++ [t2]) ∧ segChain mid2 ∧ _
    by_cases hgap : lastEnd q < m.print_time
    · obtain ⟨npt, hmoves, hnpt⟩ := add_move_eq_gap q m mid t hq hgap
      have hlink1 : ∀ x, mid.getLast? = some x → x.print_time + x.move_t =
          ({ moveDefault with
              start_pos := m.start_pos
              print_time := npt
              move_t := m.print_time - npt } : Move).print_time := by
        intro x hx
        have hmidne : mid ≠ [] := by
          intro he
          rw [he] at hx
          cases hx
        have hactive : q.get_active_moves = mid := active_shape q mid t hq
        have hncap := hgood.2.2 hgap (by rw [hactive]; exact hmidne)
        have hnpt' := hnpt hncap
        have hxval : mid.getLastD headSentinel = x := getLastD_of_getLast? mid x headSentinel hx
        have hprev : prevMove q = x := by rw [prevMove_shape q mid t hq, hxval]
        show x.print_time + x.move_t = npt
        rw [hnpt']
        simp only [lastEnd, hprev]
      have hchain1 : segChain (mid ++ [{ moveDefault with
          start_pos := m.start_pos
          print_time := npt
          move_t := m.print_time - npt }]) :=
        segChain_append_one mid _ hc hlink1
      have hlink2 : ∀ x, (mid ++ [{ moveDefault with
          start_pos := m.start_pos
          print_time := npt
          move_t := m.print_time - npt }]).getLast? = some x →
          x.print_time + x.move_t = m.print_time := by
        intro x hx
        rw [List.getLast?_concat] at hx
        cases hx
        show npt + (m.print_time - npt) = m.print_time
        ring
      have hchain2 := segChain_append_one _ m hchain1 hlink2
      obtain ⟨mid2, t2, h1, h2, h3⟩ := ih (q.add_move m) _ _ hmoves hchain2 hgs
      refine ⟨mid2, t2, h1, h2, Or.inr ?_⟩
      rcases h3 with ⟨hms, hmid2, ht2⟩ | ⟨hpt, hne⟩
      · subst ht2
        subst hmid2
        exact ⟨rfl, by simp⟩
      · exact ⟨hpt, hne⟩
    · have hmoves := add_move_eq_nogap q m mid t hq hgap
      have hlink : ∀ x, mid.getLast? = some x → x.print_time + x.move_t = m.print_time := by
        intro x hx
        have hxval : mid.getLastD headSentinel = x := getLastD_of_getLast? mid x headSentinel hx
        have hprev : prevMove q = x := by rw [prevMove_shape q mid t hq, hxval]
        have heq : lastEnd q = m.print_time := le_antisymm hgood.2.1 (not_lt.mp hgap)
        rw [← heq]
        simp only [lastEnd, hprev]
      have hchain2 : segChain (mid ++ [m]) := segChain_append_one mid m hc hlink
      obtain ⟨mid2, t2, h1, h2, h3⟩ := ih (q.add_move m) _ _ hmoves hchain2 hgs
      refine ⟨mid2, t2, h1, h2, Or.inr ?_⟩
      rcases h3 with ⟨hms, hmid2, ht2⟩ | ⟨hpt, hne⟩
      · subst ht2
        subst hmid2
        exact ⟨rfl, by simp⟩
      · exact ⟨hpt, hne⟩

/-- The queue built by a sequence of `add_move` calls on a fresh queue. -/
def addedQueue (adds : List Move) : TrapQueue :=
  adds.foldl TrapQueue.add_move TrapQueue.new

/-- C5 amended: after a sequence of well-behaved `add_move` calls
(non-negative durations, non-decreasing against the queue end, and never
triggering the capped null-fill branch while real segments exist), the
active segments are gap-free, and after `check_sentinels` the tail
sentinel carries `NEVER_TIME` (no active segments) or starts at the
previous segment's end time with its end coordinate. -/
theorem c5_amended (adds : List Move) (hg : goodAdds TrapQueue.new adds) :
    segChain (addedQueue adds).get_active_moves ∧
    ((((addedQueue adds).check_sentinels.moves.getLastD moveDefault).print_time =
          NEVER_TIME ∧
        (addedQueue adds).get_active_moves = [] ∨
      (((addedQueue adds).check_sentinels.moves.getLastD moveDefault).print_time =
          lastEnd (addedQueue adds) ∧
        ((addedQueue adds).check_sentinels.moves.getLastD moveDefault).start_pos =
          move_get_coord (prevMove (addedQueue adds)) (prevMove (addedQueue adds)).move_t))) := by
  have hnew : TrapQueue.new.moves = headSentinel :: ([] ++ [neverTail]) := rfl
  obtain ⟨mid2, t2, h1, h2, h3⟩ :=
    addedQueue_inv adds TrapQueue.new [] neverTail hnew (by simp [segChain]) hg
  have hactive : (addedQueue adds).get_active_moves = mid2 := active_shape _ mid2 t2 h1
  constructor
  · rw [hactive]
    exact h2
  · rcases h3 with ⟨hnil, hmid, ht2⟩ | ⟨hpt0, hne⟩
    · left
      subst hnil
      constructor
      · norm_num [addedQueue, TrapQueue.check_sentinels, TrapQueue.new, NEVER_TIME,
          moveDefault, neverTail, headSentinel, modify_tail]
      · rw [hactive, hmid]
    · right
      have h1A : (addedQueue adds).moves = headSentinel :: (mid2 ++ [t2]) := h1
      have htail : (addedQueue adds).moves.getLastD moveDefault = t2 := by
        rw [h1A]
        exact getLastD_shape _ _ _
      have hc1 : ¬ ((addedQueue adds).moves.getLastD moveDefault).print_time ≠ 0 := by
        rw [htail, hpt0]
        simp
      have hlen : ¬ ((addedQueue adds).moves.length ≤ 2) := by
        rw [h1A]
        simp only [List.length_cons, List.length_append, List.length_singleton]
        have hln : mid2.length ≠ 0 := fun hz => hne (List.eq_nil_of_length_eq_zero hz)
        omega
      have hcs : (addedQueue adds).check_sentinels.moves =
          modify_tail (addedQueue adds).moves
            (fun tl => { tl with
              print_time := (prevMove (addedQueue adds)).print_time +
                (prevMove (addedQueue adds)).move_t
              move_t := 0
              start_pos := move_get_coord (prevMove (addedQueue adds))
                (prevMove (addedQueue adds)).move_t }) := by
        simp only [TrapQueue.check_sentinels]
        rw [if_neg hc1, if_neg hlen]
        rfl
      rw [hcs, modify_tail_getLastD]
      exact ⟨rfl, rfl⟩

/-- C5 amended witness: the single well-behaved add of `mA` (the initial
hole is filled from the head sentinel; the capped branch needs an existing
real segment, absent here). -/
theorem c5_amended_witness :
    segChain (addedQueue [mA]).get_active_moves ∧
    ((((addedQueue [mA]).check_sentinels.moves.getLastD moveDefault).print_time =
          NEVER_TIME ∧
        (addedQueue [mA]).get_active_moves = [] ∨
      (((addedQueue [mA]).check_sentinels.moves.getLastD moveDefault).print_time =
          lastEnd (addedQueue [mA]) ∧
        ((addedQueue [mA]).check_sentinels.moves.getLastD moveDefault).start_pos =
          move_get_coord (prevMove (addedQueue [mA])) (prevMove (addedQueue [mA])).move_t))) :=
  c5_amended [mA]
    (by norm_num [goodAdds, goodAdd, lastEnd, prevMove, TrapQueue.new,
      TrapQueue.get_active_moves, moveDefault, mA, headSentinel, MAX_NULL_MOVE,
      NEVER_TIME])
